import Mathlib

/-!
Shallow embedding of the step-function workflow compiler
(coworks/cli/sfn.py) and proofs about it.

YAML scalar/collection values are modelled by the type JVal below; a
Python mapping is modelled by an insertion-ordered association list
(List (String × _)) together with the Python dict operations dget
(lookup of the first binding), dmem (key membership) and dset
(replace-in-place when present, append otherwise).
-/

namespace Sfn

/-- A YAML/JSON value as loaded by the YAML loader (Python objects). -/
inductive JVal where
  | null : JVal
  | bool : Bool → JVal
  | num : Int → JVal
  | str : String → JVal
  | arr : List JVal → JVal
  | obj : List (String × JVal) → JVal

mutual

/-- Decidable equality of JVal (written by hand: automatic deriving does
not handle the nested lists). -/
def JVal.decEq : (a b : JVal) → Decidable (a = b)
  | .null, .null => .isTrue rfl
  | .bool x, .bool y =>
    if h : x = y then .isTrue (by rw [h]) else .isFalse (fun c => h (by cases c; rfl))
  | .num x, .num y =>
    if h : x = y then .isTrue (by rw [h]) else .isFalse (fun c => h (by cases c; rfl))
  | .str x, .str y =>
    if h : x = y then .isTrue (by rw [h]) else .isFalse (fun c => h (by cases c; rfl))
  | .arr x, .arr y =>
    match JVal.decEqList x y with
    | .isTrue h => .isTrue (by rw [h])
    | .isFalse h => .isFalse (fun c => h (by cases c; rfl))
  | .obj x, .obj y =>
    match JVal.decEqPairs x y with
    | .isTrue h => .isTrue (by rw [h])
    | .isFalse h => .isFalse (fun c => h (by cases c; rfl))
  | .null, .bool _ => .isFalse (fun h => JVal.noConfusion h)
  | .null, .num _ => .isFalse (fun h => JVal.noConfusion h)
  | .null, .str _ => .isFalse (fun h => JVal.noConfusion h)
  | .null, .arr _ => .isFalse (fun h => JVal.noConfusion h)
  | .null, .obj _ => .isFalse (fun h => JVal.noConfusion h)
  | .bool _, .null => .isFalse (fun h => JVal.noConfusion h)
  | .bool _, .num _ => .isFalse (fun h => JVal.noConfusion h)
  | .bool _, .str _ => .isFalse (fun h => JVal.noConfusion h)
  | .bool _, .arr _ => .isFalse (fun h => JVal.noConfusion h)
  | .bool _, .obj _ => .isFalse (fun h => JVal.noConfusion h)
  | .num _, .null => .isFalse (fun h => JVal.noConfusion h)
  | .num _, .bool _ => .isFalse (fun h => JVal.noConfusion h)
  | .num _, .str _ => .isFalse (fun h => JVal.noConfusion h)
  | .num _, .arr _ => .isFalse (fun h => JVal.noConfusion h)
  | .num _, .obj _ => .isFalse (fun h => JVal.noConfusion h)
  | .str _, .null => .isFalse (fun h => JVal.noConfusion h)
  | .str _, .bool _ => .isFalse (fun h => JVal.noConfusion h)
  | .str _, .num _ => .isFalse (fun h => JVal.noConfusion h)
  | .str _, .arr _ => .isFalse (fun h => JVal.noConfusion h)
  | .str _, .obj _ => .isFalse (fun h => JVal.noConfusion h)
  | .arr _, .null => .isFalse (fun h => JVal.noConfusion h)
  | .arr _, .bool _ => .isFalse (fun h => JVal.noConfusion h)
  | .arr _, .num _ => .isFalse (fun h => JVal.noConfusion h)
  | .arr _, .str _ => .isFalse (fun h => JVal.noConfusion h)
  | .arr _, .obj _ => .isFalse (fun h => JVal.noConfusion h)
  | .obj _, .null => .isFalse (fun h => JVal.noConfusion h)
  | .obj _, .bool _ => .isFalse (fun h => JVal.noConfusion h)
  | .obj _, .num _ => .isFalse (fun h => JVal.noConfusion h)
  | .obj _, .str _ => .isFalse (fun h => JVal.noConfusion h)
  | .obj _, .arr _ => .isFalse (fun h => JVal.noConfusion h)

/-- Decidable equality of lists of JVal. -/
def JVal.decEqList : (a b : List JVal) → Decidable (a = b)
  | [], [] => .isTrue rfl
  | [], _ :: _ => .isFalse (fun h => List.noConfusion h)
  | _ :: _, [] => .isFalse (fun h => List.noConfusion h)
  | x :: xs, y :: ys =>
    match JVal.decEq x y with
    | .isFalse h => .isFalse (fun c => h (by cases c; rfl))
    | .isTrue h1 =>
      match JVal.decEqList xs ys with
      | .isTrue h2 => .isTrue (by rw [h1, h2])
      | .isFalse h => .isFalse (fun c => h (by cases c; rfl))

/-- Decidable equality of lists of (String × JVal) pairs. -/
def JVal.decEqPairs : (a b : List (String × JVal)) → Decidable (a = b)
  | [], [] => .isTrue rfl
  | [], _ :: _ => .isFalse (fun h => List.noConfusion h)
  | _ :: _, [] => .isFalse (fun h => List.noConfusion h)
  | (k1, v1) :: xs, (k2, v2) :: ys =>
    if hk : k1 = k2 then
      match JVal.decEq v1 v2 with
      | .isFalse h => .isFalse (fun c => h (by cases c; rfl))
      | .isTrue h1 =>
        match JVal.decEqPairs xs ys with
        | .isTrue h2 => .isTrue (by rw [hk, h1, h2])
        | .isFalse h => .isFalse (fun c => h (by cases c; rfl))
    else .isFalse (fun c => hk (by cases c; rfl))

end

instance : DecidableEq JVal := JVal.decEq

/-- Python dict lookup d[k] (first binding of the key). -/
def dget {α : Type} (d : List (String × α)) (k : String) : Option α :=
  (d.find? (fun p => p.1 = k)).map Prod.snd

/-- Python `k in d` test. -/
def dmem {α : Type} (d : List (String × α)) (k : String) : Bool :=
  d.any (fun p => p.1 = k)

/-- Python dict assignment d[k] = v: replaces the value at the key
position when the key exists, appends a fresh binding otherwise. -/
def dset {α : Type} (d : List (String × α)) (k : String) (v : α) :
    List (String × α) :=
  if dmem d k then d.map (fun p => if p.1 = k then (k, v) else p)
  else d ++ [(k, v)]

/-- A Python dict built from a list of key/value pairs in order
(the dict comprehension at the end of create_step_function): later
bindings of a key overwrite earlier ones in place. -/
def pyDict {α : Type} (l : List (String × α)) : List (String × α) :=
  l.foldl (fun d p => dset d p.1 p.2) []

/-- Python truthiness of a loaded YAML value (used by
`body if body else None` and by `if form_data`). -/
def JVal.truthy : JVal → Bool
  | .null => false
  | .bool b => b
  | .num n => decide (n ≠ 0)
  | .str s => decide (s ≠ "")
  | .arr l => decide (l ≠ [])
  | .obj l => decide (l ≠ [])

mutual

/-- Textual rendering of a value, standing for the Python f-string
interpolation of loaded YAML objects inside error messages (Python
quoting of strings is abstracted away). -/
def JVal.render : JVal → String
  | .null => "None"
  | .bool true => "True"
  | .bool false => "False"
  | .num n => toString n
  | .str s => s
  | .arr l => "[" ++ JVal.renderList l ++ "]"
  | .obj l => "\x7b" ++ JVal.renderPairs l ++ "\x7d"

/-- Rendering of the elements of a list value, comma separated. -/
def JVal.renderList : List JVal → String
  | [] => ""
  | [x] => JVal.render x
  | x :: xs => JVal.render x ++ ", " ++ JVal.renderList xs

/-- Rendering of the bindings of a mapping value, comma separated. -/
def JVal.renderPairs : List (String × JVal) → String
  | [] => ""
  | [(k, v)] => k ++ ": " ++ JVal.render v
  | (k, v) :: xs => k ++ ": " ++ JVal.render v ++ ", " ++ JVal.renderPairs xs

end

/-- The nested `tech` descriptor of a Task action.  Each field models the
binding of the key of the same name in the source mapping: `none` means
the key is absent, `some v` that it is bound to the value `v` (so
`some JVal.null` is a key explicitly bound to YAML null).  The field
form_data models the key "form-data". -/
structure Tech where
  service : Option JVal := none
  get : Option JVal := none
  post : Option JVal := none
  uri_params : Option JVal := none
  query_params : Option JVal := none
  body : Option JVal := none
  form_data : Option JVal := none
  timeout : Option JVal := none
deriving DecidableEq

/-- A comparison fragment requiring the keys var / oper / value
(the argument of create_condition). -/
structure CondData where
  var : Option JVal := none
  oper : Option String := none
  value : Option JVal := none
deriving DecidableEq

/-- One entry of a `choices` list.  notKey, orKey and andKey model the
keys "not", "or" and "and"; the bare comparison keys var / oper / value
are carried directly (create_condition is applied to the entry itself
when no wrapper key is present).  A `goto` bound to null is identified
with an absent `goto` (the source reads it with .get, which returns
None in both cases). -/
structure ChoiceItem where
  goto : Option String := none
  notKey : Option CondData := none
  orKey : Option CondData := none
  andKey : Option CondData := none
  var : Option JVal := none
  oper : Option String := none
  value : Option JVal := none
deriving DecidableEq

/-- One action of the DSL: the keys of the source mapping that the
compiler reads.  `goto` bound to null is identified with an absent
`goto` (read with .get); `wait` and `default` keep presence and value
apart because the source tests key membership on them.  `tech` and
`choices` values are taken to be of their expected shapes (a mapping
and a list): other shapes crash the source with a wrapped type error
and are outside this model. -/
structure Action where
  name : Option String := none
  goto : Option String := none
  wait : Option JVal := none
  tech : Option Tech := none
  choices : Option (List ChoiceItem) := none
  default : Option JVal := none
deriving DecidableEq

/-- A parsed source document: the top level keys comment, states and
catch (field catchKey).  For states and catch, a key bound to null is
identified with a key bound to an empty list: both fail the same
`if not actions` test in add_actions. -/
structure Doc where
  comment : Option JVal := none
  states : Option (List Action) := none
  catchKey : Option (List Action) := none
deriving DecidableEq

/-- Rendering of a comparison fragment (for error messages). -/
def condText (c : CondData) : String :=
  "\x7b" ++ String.intercalate ", " (
    (match c.var with | none => [] | some v => ["var: " ++ JVal.render v]) ++
    (match c.oper with | none => [] | some s => ["oper: " ++ s]) ++
    (match c.value with | none => [] | some v => ["value: " ++ JVal.render v])) ++ "\x7d"

/-- Rendering of a choices entry (for error messages). -/
def choiceItemText (c : ChoiceItem) : String :=
  "\x7b" ++ String.intercalate ", " (
    (match c.goto with | none => [] | some s => ["goto: " ++ s]) ++
    (match c.notKey with | none => [] | some d => ["not: " ++ condText d]) ++
    (match c.orKey with | none => [] | some d => ["or: " ++ condText d]) ++
    (match c.andKey with | none => [] | some d => ["and: " ++ condText d]) ++
    (match c.var with | none => [] | some v => ["var: " ++ JVal.render v]) ++
    (match c.oper with | none => [] | some s => ["oper: " ++ s]) ++
    (match c.value with | none => [] | some v => ["value: " ++ JVal.render v])) ++ "\x7d"

/-- Rendering of a tech descriptor (for error messages). -/
def techText (t : Tech) : String :=
  "\x7b" ++ String.intercalate ", " (
    (match t.service with | none => [] | some v => ["service: " ++ JVal.render v]) ++
    (match t.get with | none => [] | some v => ["get: " ++ JVal.render v]) ++
    (match t.post with | none => [] | some v => ["post: " ++ JVal.render v]) ++
    (match t.uri_params with | none => [] | some v => ["uri_params: " ++ JVal.render v]) ++
    (match t.query_params with | none => [] | some v => ["query_params: " ++ JVal.render v]) ++
    (match t.body with | none => [] | some v => ["body: " ++ JVal.render v]) ++
    (match t.form_data with | none => [] | some v => ["form-data: " ++ JVal.render v]) ++
    (match t.timeout with | none => [] | some v => ["timeout: " ++ JVal.render v])) ++ "\x7d"

/-- Rendering of an action (for error messages and for the fallback
name of a nameless action). -/
def actionText (a : Action) : String :=
  "\x7b" ++ String.intercalate ", " (
    (match a.name with | none => [] | some s => ["name: " ++ s]) ++
    (match a.goto with | none => [] | some s => ["goto: " ++ s]) ++
    (match a.wait with | none => [] | some v => ["wait: " ++ JVal.render v]) ++
    (match a.tech with | none => [] | some t => ["tech: " ++ techText t]) ++
    (match a.choices with
      | none => []
      | some l => ["choices: [" ++ String.intercalate ", " (l.map choiceItemText) ++ "]"]) ++
    (match a.default with | none => [] | some v => ["default: " ++ JVal.render v])) ++ "\x7d"

/-- Rendering of a whole document (for error messages). -/
def docText (d : Doc) : String :=
  "\x7b" ++ String.intercalate ", " (
    (match d.comment with | none => [] | some v => ["comment: " ++ JVal.render v]) ++
    (match d.states with
      | none => []
      | some l => ["states: [" ++ String.intercalate ", " (l.map actionText) ++ "]"]) ++
    (match d.catchKey with
      | none => []
      | some l => ["catch: [" ++ String.intercalate ", " (l.map actionText) ++ "]"])) ++ "\x7d"

/-- INITIAL_STATE_NAME. -/
def INITIAL_STATE_NAME : String := "Init"

/-- LAMBDA_ERROR_FALLBACK. -/
def LAMBDA_ERROR_FALLBACK : String := "MicroServiceErrorFallback"

/-- State.name: the declared name of the action, or a fallback text for
a nameless action. -/
def actionName (a : Action) : String :=
  a.name.getD ("The action " ++ actionText a ++ " has no name")

/-- State.slug: the name, whitespace replaced by underscores,
lowercased. -/
def slugOf (nm : String) : String :=
  String.toLower (String.intercalate "_"
    ((nm.split (fun c => c = ' ' || c = '\t' || c = '\n' || c = '\r')).filter
      (fun s => s ≠ "")))

/-- A compiled state: the action it came from, whether it is a Choice
(the isinstance test of the linker), and its emitted definition as an
insertion-ordered mapping. -/
structure StateNode where
  action : Action
  isChoice : Bool
  state : List (String × JVal)
deriving DecidableEq

/-- The name of a compiled state (State.name on its action). -/
def StateNode.name (s : StateNode) : String := actionName s.action

/-- State.get_goto: "End" maps to the (End, true) entry, any other
target to (Next, target), absence (or null) to nothing. -/
def getGotoEntry (g : Option String) : Option (String × JVal) :=
  match g with
  | none => none
  | some g => if g = "End" then some ("End", JVal.bool true) else some ("Next", JVal.str g)

/-- State.add_goto: write the goto entry into the state mapping when
there is one. -/
def addGoto (g : Option String) (d : List (String × JVal)) : List (String × JVal) :=
  match getGotoEntry g with
  | none => d
  | some (k, v) => dset d k v

/-- PassState: a state of Type Pass. -/
def mkPassState (a : Action) : StateNode :=
  { action := a, isChoice := false, state := [("Type", JVal.str "Pass")] }

/-- EndState: a PassState additionally marked End: true. -/
def mkEndState (a : Action) : StateNode :=
  let p := mkPassState a
  { p with state := dset p.state "End" (JVal.bool true) }

/-- WaitState: Type Wait, Seconds from the wait key, then the goto
entry. -/
def mkWaitState (a : Action) (w : JVal) : StateNode :=
  { action := a, isChoice := false,
    state := addGoto a.goto [("Type", JVal.str "Wait"), ("Seconds", w)] }

/-- The two fixed catch clauses attached to every Task state. -/
def techCatchVal : JVal :=
  JVal.arr
    [JVal.obj [("ErrorEquals", JVal.arr [JVal.str "BadRequestError"]),
               ("Next", JVal.str LAMBDA_ERROR_FALLBACK)],
     JVal.obj [("ErrorEquals", JVal.arr [JVal.str "States.TaskFailed"]),
               ("Next", JVal.str LAMBDA_ERROR_FALLBACK)]]

/-- The ConflictingRoute message of get_call_data. -/
def routeConflictMsg (a : Action) : String :=
  "A route was already defined for " ++ actionText a

/-- The MissingRoute message of get_call_data. -/
def noRouteMsg (a : Action) : String :=
  "No route defined for " ++ actionText a

/-- The tail of TechState.get_call_data: builds the Parameters value
from the resolved route and method and the optional call parameters. -/
def callParams (t : Tech) (route method : JVal) : JVal :=
  let uriParams := t.uri_params.getD JVal.null
  let queryParams := t.query_params.getD JVal.null
  let body := t.body.getD JVal.null
  let formData := t.form_data.getD JVal.null
  let contentType := if formData = JVal.null then "application/json" else "multipart/form-data"
  JVal.obj
    [("type", JVal.str "CWS_SFN"),
     ("resource", route),
     ("path", route),
     ("requestContext", JVal.obj [("resourcePath", route), ("httpMethod", method)]),
     ("multiValueQueryStringParameters", queryParams),
     ("pathParameters", uriParams),
     ("headers", JVal.obj [("Accept-Encoding", JVal.str "gzip,deflate"),
                           ("Content-Type", JVal.str contentType)]),
     ("body", if body.truthy then body else JVal.null),
     ("form-data", if formData.truthy then formData else JVal.null),
     ("stageVariables", JVal.null)]

/-- TechState.get_call_data: resolve the route from the get / post keys
(a Python None route, i.e. an absent or null-valued key, counts as no
route), then build the Parameters value. -/
def getCallData (a : Action) (t : Tech) : Except String JVal :=
  let route0 : JVal := match t.get with | some g => g | none => JVal.null
  let method0 : JVal := match t.get with | some _ => JVal.str "GET" | none => JVal.null
  match t.post with
  | some p =>
    if route0 ≠ JVal.null then .error (routeConflictMsg a)
    else if p = JVal.null then .error (noRouteMsg a)
    else .ok (callParams t p (JVal.str "POST"))
  | none =>
    if route0 = JVal.null then .error (noRouteMsg a)
    else .ok (callParams t route0 method0)

/-- The state mapping of a Task state: the fixed entries, the goto
entry, then the optional TimeoutSeconds entry (skipped when the timeout
key is absent or null). -/
def techStateDict (a : Action) (t : Tech) (sv : JVal) (params : JVal) :
    List (String × JVal) :=
  let st0 : List (String × JVal) :=
    [("Type", JVal.str "Task"),
     ("Resource", JVal.str ("arn:aws:lambda:eu-west-1:935392763270:function:"
        ++ JVal.render sv)),
     ("InputPath", JVal.str "$"),
     ("ResultPath", JVal.str ("$." ++ slugOf (actionName a) ++ ".result")),
     ("OutputPath", JVal.str "$"),
     ("Parameters", params),
     ("Catch", techCatchVal)]
  let st1 := addGoto a.goto st0
  match t.timeout with
  | some tv => if tv ≠ JVal.null then dset st1 "TimeoutSeconds" tv else st1
  | none => st1

/-- TechState: Type Task with the invocation payload, the two fixed
catch clauses, the goto entry and the optional timeout.  The missing
service key raises before the route is resolved, as in the source. -/
def mkTechState (a : Action) : Except String StateNode :=
  match a.tech with
  | none => .error ("The key tech is missing for " ++ actionText a)
  | some t =>
    match t.service with
    | none => .error ("The key service is missing for " ++ actionText a)
    | some sv =>
      match getCallData a t with
      | .error e => .error e
      | .ok params =>
        .ok { action := a, isChoice := false, state := techStateDict a t sv params }

/-- create_condition: requires the var, oper and value keys of the
fragment rendered as src. -/
def condObj (src : String) (var : Option JVal) (oper : Option String)
    (value : Option JVal) : Except String (List (String × JVal)) :=
  match var with
  | none => .error ("The key var is missing for " ++ src)
  | some v =>
    match oper with
    | none => .error ("The key oper is missing for " ++ src)
    | some op =>
      match value with
      | none => .error ("The key value is missing for " ++ src)
      | some val => .ok (dset [("Variable", v)] op val)

/-- ChoiceState.create_choices_sequence over the entries of a choices
list: every entry must carry a goto; a single not / or / and wrapper
embeds the wrapped comparison, otherwise the comparison keys of the
entry itself are used and the goto entry is merged into it. -/
def choicesSeq : List ChoiceItem → Except String (List JVal)
  | [] => .ok []
  | c :: rest =>
    match getGotoEntry c.goto with
    | none => .error ("The key goto is missing for " ++ choiceItemText c)
    | some (k, v) =>
      let entry : Except String JVal :=
        match c.notKey with
        | some d =>
          match condObj (condText d) d.var d.oper d.value with
          | .error e => .error e
          | .ok cond => .ok (JVal.obj (dset [("Not", JVal.obj cond)] k v))
        | none =>
          match c.orKey with
          | some d =>
            match condObj (condText d) d.var d.oper d.value with
            | .error e => .error e
            | .ok cond => .ok (JVal.obj (dset [("Or", JVal.obj cond)] k v))
          | none =>
            match c.andKey with
            | some d =>
              match condObj (condText d) d.var d.oper d.value with
              | .error e => .error e
              | .ok cond => .ok (JVal.obj (dset [("And", JVal.obj cond)] k v))
            | none =>
              match condObj (choiceItemText c) c.var c.oper c.value with
              | .error e => .error e
              | .ok cond => .ok (JVal.obj (dset cond k v))
      match entry with
      | .error e => .error e
      | .ok j =>
        match choicesSeq rest with
        | .error e => .error e
        | .ok js => .ok (j :: js)

/-- ChoiceState: Type Choice with its Choices sequence, and a Default
entry exactly when the action declares a default key (whatever its
value). -/
def mkChoiceState (a : Action) : Except String StateNode :=
  match a.choices with
  | none => .error ("The key choices is missing for " ++ actionText a)
  | some items =>
    match choicesSeq items with
    | .error e => .error e
    | .ok seq =>
      let st0 : List (String × JVal) :=
        [("Type", JVal.str "Choice"), ("Choices", JVal.arr seq)]
      let st1 :=
        match a.default with
        | some v => dset st0 "Default" v
        | none => st0
      .ok { action := a, isChoice := true, state := st1 }

/-- The state construction part of new_state: dispatch on the presence
of the choices, tech and wait keys, in that order. -/
def newStateCore (a : Action) : Except String StateNode :=
  if a.choices.isSome then mkChoiceState a
  else if a.tech.isSome then mkTechState a
  else
    match a.wait with
    | some w => .ok (mkWaitState a w)
    | none => .error ("Undefined type of action for " ++ actionText a)

/-- new_state.add_next_to_previous_state: give the previous state its
outgoing edge, only when the corresponding slot is still absent. -/
def linkPrev (prev : StateNode) (nm : String) : StateNode :=
  if prev.isChoice then
    if dmem prev.state "Default" then prev
    else { prev with state := dset prev.state "Default" (JVal.str nm) }
  else
    if dmem prev.state "Next" || dmem prev.state "End" then prev
    else { prev with state := dset prev.state "Next" (JVal.str nm) }

/-- The terminal marking of add_actions: a state whose action equals
the last action of the list and that has no Next entry is marked
End: true. -/
def endMarkIf (lastAction : Action) (a : Action) (st : StateNode) : StateNode :=
  if a = lastAction && !(dmem st.state "Next") then
    { st with state := dset st.state "End" (JVal.bool true) }
  else st

/-- The loop of add_actions: compile each action, link it to the
previous state, apply the terminal marking.  Returns the final version
of the incoming previous state together with the new states in order. -/
def addActionsAux (lastAction : Action) (prev : StateNode) :
    List Action → Except String (StateNode × List StateNode)
  | [] => .ok (prev, [])
  | a :: rest =>
    match newStateCore a with
    | .error e => .error e
    | .ok st =>
      let prevLinked := linkPrev prev st.name
      let stMarked := endMarkIf lastAction a st
      match addActionsAux lastAction stMarked rest with
      | .error e => .error e
      | .ok (stFinal, news) => .ok (prevLinked, stFinal :: news)

/-- add_actions: fails on an empty action list, otherwise runs the loop
anchored at the last state of the incoming list and returns the list
extended with the new states (and with its anchor possibly linked). -/
def add_actions (states : List StateNode) (actions : List Action) :
    Except String (List StateNode) :=
  match actions.getLast? with
  | none => .error "Actions list cannot be empty."
  | some lastAction =>
    match states.getLast? with
    | none => .error "list index out of range"
    | some prev =>
      match addActionsAux lastAction prev actions with
      | .error e => .error e
      | .ok (prevFinal, news) => .ok (states.dropLast ++ prevFinal :: news)

/-- The action of the reserved Init state. -/
def initAction : Action := { name := some INITIAL_STATE_NAME }

/-- The action of the reserved fallback state. -/
def fallbackAction : Action := { name := some LAMBDA_ERROR_FALLBACK }

/-- The in-place update of the Init state after the main sequence is
built: its Result is set to the empty mapping and its Next edge to the
name of the first real state. -/
def initUpdate (f : StateNode) (nm : String) : StateNode :=
  { f with state := dset (dset f.state "Result" (JVal.obj [])) "Next" (JVal.str nm) }

/-- The body of create_step_function up to the complete state list:
build the main sequence anchored at the Init state, give Init its empty
Result and its Next edge to the first real state, then append the
fallback state (a terminal EndState without a catch section, a
PassState chained into the compiled catch list with one). -/
def buildAllStates (data : Doc) : Except String (List StateNode) :=
  match data.states with
  | none => .error ("The key states is missing for " ++ docText data)
  | some acts =>
    match add_actions [mkPassState initAction] acts with
    | .error e => .error e
    | .ok allStates =>
      match allStates[1]? with
      | none => .error "list index out of range"
      | some second =>
        let allStates2 :=
          match allStates with
          | [] => []  -- unreachable: the list always has at least two states here
          | f :: rest => initUpdate f second.name :: rest
        match data.catchKey with
        | none => .ok (allStates2 ++ [mkEndState fallbackAction])
        | some c => add_actions (allStates2 ++ [mkPassState fallbackAction]) c

/-- The document returned by create_step_function. -/
structure SfnOut where
  Version : String
  Comment : JVal
  StartAt : String
  States : List (String × (List (String × JVal)))
deriving DecidableEq

/-- create_step_function on an already loaded document (none models a
file whose content parses to nothing). -/
def create_step_function (sfnName : String) (data : Option Doc) :
    Except String SfnOut :=
  match data with
  | none =>
    .error ("The content of the " ++ sfnName ++ " microservice seems to be empty.")
  | some d =>
    match buildAllStates d with
    | .error e => .error e
    | .ok allStates =>
      .ok { Version := "1.0",
            Comment := d.comment.getD (JVal.str sfnName),
            StartAt := "Init",
            States := pyDict (allStates.map (fun s => (s.name, s.state))) }

/-- The loop of StepFunctionWriter._export_content: compile each
service name once (a name already compiled successfully, or filtered
out by the biz argument, is skipped), collecting the compiled documents
and the per-name error messages. -/
def collectSfn (compile : String → Except String SfnOut) (biz : Option String) :
    List String → List (String × SfnOut) × List (String × String) →
    List (String × SfnOut) × List (String × String)
  | [], acc => acc
  | n :: rest, (sfns, errs) =>
    if dmem sfns n || (match biz with | none => false | some b => n ≠ b) then
      collectSfn compile biz rest (sfns, errs)
    else
      match compile n with
      | .ok sfn => collectSfn compile biz rest (dset sfns n sfn, errs)
      | .error e => collectSfn compile biz rest (sfns, dset errs n e)

/-- One chunk written to the output stream: a document or the "---"
boundary marker. -/
inductive OutItem where
  | sep : OutItem
  | doc : SfnOut → OutItem
deriving DecidableEq

/-- The tail of the output: every document after the first is preceded
by the boundary marker. -/
def renderRest : List (String × SfnOut) → List OutItem
  | [] => []
  | (_, d) :: rest => OutItem.sep :: OutItem.doc d :: renderRest rest

/-- The output stream for a list of compiled documents: the documents
in order, consecutive ones separated by the boundary marker. -/
def renderDocs : List (String × SfnOut) → List OutItem
  | [] => []
  | (_, d) :: rest => OutItem.doc d :: renderRest rest

/-- The observable outcome of _export_content: what was printed to the
error stream, what was printed to the output stream, and whether a
WriterError was raised at the end. -/
structure ExportResult where
  errorStream : List String
  outputStream : List OutItem
  failed : Bool
deriving DecidableEq

/-- StepFunctionWriter._export_content, over the sfn names of the
declared services in iteration order; compile stands for
create_step_function applied to the file derived from a name. -/
def exportContent (compile : String → Except String SfnOut) (appName : String)
    (biz : Option String) (serviceNames : List String) : ExportResult :=
  let warn : List String :=
    if serviceNames.isEmpty then ["No bizz service defined for " ++ appName] else []
  let res := collectSfn compile biz serviceNames ([], [])
  if res.2.isEmpty then
    { errorStream := warn, outputStream := renderDocs res.1, failed := false }
  else
    { errorStream := warn ++ res.2.map (fun p => "Error in " ++ p.1 ++ ": " ++ p.2),
      outputStream := [], failed := true }

/-- The skip test of the biz argument, as a positive predicate: a name
is attempted when no biz filter is given or when it equals it. -/
def allowedBiz (biz : Option String) (n : String) : Bool :=
  match biz with
  | none => true
  | some b => n = b

/-- The declarative description of which documents a fully successful
batch writes: the first occurrence of each allowed name, in order, with
its compiled document. -/
def expectedFrom (compile : String → Except String SfnOut) (biz : Option String) :
    List String → List String → List (String × SfnOut)
  | _, [] => []
  | seen, n :: rest =>
    if n ∈ seen ∨ allowedBiz biz n = false then expectedFrom compile biz seen rest
    else
      match compile n with
      | .ok o => (n, o) :: expectedFrom compile biz (seen ++ [n]) rest
      | .error _ => expectedFrom compile biz seen rest

/-- The effective route of a tech descriptor: the post value when a
post key is present, otherwise the get value, a missing key counting as
null. -/
def effRoute (t : Tech) : JVal :=
  match t.post with
  | some p => p
  | none => t.get.getD JVal.null

/-- The HTTP method matching the effective route. -/
def effMethod (t : Tech) : JVal :=
  match t.post with
  | some _ => JVal.str "POST"
  | none => JVal.str "GET"

/-- The conflict condition of get_call_data: a post key is present
while the get key holds a non-null value. -/
def routeConflicts (t : Tech) : Prop :=
  t.post.isSome = true ∧ t.get.getD JVal.null ≠ JVal.null

instance (t : Tech) : Decidable (routeConflicts t) := by
  unfold routeConflicts
  infer_instance

/-- The fallback state emitted for a document without a catch section. -/
def fbEndNode : StateNode :=
  { action := fallbackAction, isChoice := false,
    state := [("Type", JVal.str "Pass"), ("End", JVal.bool true)] }

/-- The fallback state emitted for a document with a catch section,
pointing at the named first catch state. -/
def fbPassNode (nm : String) : StateNode :=
  { action := fallbackAction, isChoice := false,
    state := [("Type", JVal.str "Pass"), ("Next", JVal.str nm)] }

/-! Concrete inputs used to witness or refute the claims. -/

/-- A wait action with a name. -/
def waitAction (nm : String) (secs : Int) : Action :=
  { name := some nm, wait := some (JVal.num secs) }

/-- Whether a compile attempt succeeded. -/
def isOkE {α : Type} (e : Except String α) : Bool :=
  match e with
  | .ok _ => true
  | .error _ => false

/-- Extract the state list of a successful build (used only on inputs
known to compile). -/
def okList (e : Except String (List StateNode)) : List StateNode :=
  match e with
  | .ok o => o
  | .error _ => []

/-- Extract the document of a successful compile (used only on inputs
known to compile). -/
def okSfn (e : Except String SfnOut) : SfnOut :=
  match e with
  | .ok o => o
  | .error _ => { Version := "", Comment := JVal.null, StartAt := "", States := [] }

/-- Extract a successfully built state (used only on inputs known to
compile). -/
def okNode (e : Except String StateNode) : StateNode :=
  match e with
  | .ok o => o
  | .error _ => mkPassState initAction

/-- A document without a catch section. -/
def c1docA : Doc := { states := some [waitAction "s1" 1] }

/-- A document with a one-action catch section. -/
def c1docB : Doc :=
  { states := some [waitAction "s1" 1], catchKey := some [waitAction "c1" 2] }

/-- An action jumping to a state that does not exist. -/
def c2action : Action :=
  { name := some "s1", wait := some (JVal.num 5), goto := some "nowhere" }

/-- A document whose only action jumps to a state that does not exist. -/
def c2doc : Doc := { states := some [c2action] }

/-- A document with two distinct actions bearing the same name. -/
def c3doc : Doc :=
  { states := some [waitAction "dup" 1, waitAction "dup" 2] }

/-- A tech descriptor with both route keys present, the get one bound
to null. -/
def c4tech : Tech :=
  { service := some (JVal.str "svc"), get := some JVal.null,
    post := some (JVal.str "/p") }

/-- The Task action carrying c4tech. -/
def c4action : Action := { name := some "t", tech := some c4tech }

/-- A document whose main and catch action lists are both empty. -/
def c5doc : Doc := { states := some [], catchKey := some [] }

/-- A choices entry with a bare comparison and a jump. -/
def c6item : ChoiceItem :=
  { goto := some "s2", var := some (JVal.str "$.x"),
    oper := some "BooleanEquals", value := some (JVal.bool true) }

/-- A choice action without a default key. -/
def c6choice : Action := { name := some "c1", choices := some [c6item] }

/-- An action list where the choice is followed by a wait action. -/
def c6acts : List Action := [c6choice, waitAction "s2" 5]

/-- The states built from c6acts. -/
def c6out : List StateNode := okList (add_actions [mkPassState initAction] c6acts)

/-- A Choice state with no Default entry yet. -/
def c7prev : StateNode :=
  { action := { name := some "c" }, isChoice := true,
    state := [("Type", JVal.str "Choice")] }

/-- A one-action list. -/
def c8acts : List Action := [waitAction "a" 1]

/-- The states built from c8acts. -/
def c8out : List StateNode := okList (add_actions [mkPassState initAction] c8acts)

/-- A compile function failing on the name bad (standing for
create_step_function over a fixed project directory). -/
def c9compile : String → Except String SfnOut := fun n =>
  if n = "bad" then .error "boom"
  else .ok { Version := "1.0", Comment := JVal.str n, StartAt := "Init", States := [] }

/-- A batch containing one failing workflow. -/
def c9names : List String := ["good", "bad"]

/-- A batch of two compiling workflows. -/
def c9namesOk : List String := ["g1", "g2"]

/-- An action list whose first element equals its last element and
whose middle element differs. -/
def c10acts : List Action :=
  [waitAction "a" 1, waitAction "b" 2, waitAction "a" 1]

/-- The states built from c10acts. -/
def c10out : List StateNode := okList (add_actions [mkPassState initAction] c10acts)

/-! Lemmas about the Python dict operations. -/

theorem dget_cons_eq {α : Type} {p : String × α} {d : List (String × α)} {k : String}
    (h : p.1 = k) : dget (p :: d) k = some p.2 := by
  simp [dget, List.find?, h]

theorem dget_cons_ne {α : Type} {p : String × α} {d : List (String × α)} {k : String}
    (h : ¬(p.1 = k)) : dget (p :: d) k = dget d k := by
  simp [dget, List.find?, h]

theorem dmem_cons_eq {α : Type} {p : String × α} {d : List (String × α)} {k : String}
    (h : p.1 = k) : dmem (p :: d) k = true := by
  simp [dmem, List.any_cons, h]

theorem dmem_cons_ne {α : Type} {p : String × α} {d : List (String × α)} {k : String}
    (h : ¬(p.1 = k)) : dmem (p :: d) k = dmem d k := by
  simp [dmem, List.any_cons, h]

theorem dmem_eq_isSome_dget {α : Type} (d : List (String × α)) (k : String) :
    dmem d k = (dget d k).isSome := by
  induction d with
  | nil => rfl
  | cons p d ih =>
    by_cases h : p.1 = k
    · rw [dmem_cons_eq h, dget_cons_eq h]; rfl
    · rw [dmem_cons_ne h, dget_cons_ne h]; exact ih

theorem dget_eq_none_of_dmem_false {α : Type} {d : List (String × α)} {k : String}
    (h : dmem d k = false) : dget d k = none := by
  rw [dmem_eq_isSome_dget] at h
  cases hf : dget d k with
  | none => rfl
  | some v => rw [hf] at h; simp at h

theorem dget_map_set_self {α : Type} (d : List (String × α)) (k : String) (v : α) :
    dget (d.map (fun p => if p.1 = k then (k, v) else p)) k =
      if dmem d k then some v else none := by
  induction d with
  | nil => rfl
  | cons p d ih =>
    by_cases h : p.1 = k
    · rw [List.map_cons, if_pos h, dmem_cons_eq h, if_pos rfl,
        dget_cons_eq (show (k, v).1 = k from rfl)]
    · rw [List.map_cons, if_neg h, dmem_cons_ne h, dget_cons_ne h]
      exact ih

theorem dget_map_set_ne {α : Type} (d : List (String × α)) (k k' : String) (v : α)
    (h : k' ≠ k) :
    dget (d.map (fun p => if p.1 = k then (k, v) else p)) k' = dget d k' := by
  induction d with
  | nil => rfl
  | cons p d ih =>
    by_cases hp : p.1 = k
    · have hp' : ¬(p.1 = k') := by rw [hp]; exact fun c => h c.symm
      rw [List.map_cons, if_pos hp,
        dget_cons_ne (show ¬((k, v).1 = k') from fun c => h c.symm),
        dget_cons_ne hp']
      exact ih
    · rw [List.map_cons, if_neg hp]
      by_cases hp' : p.1 = k'
      · rw [dget_cons_eq hp', dget_cons_eq hp']
      · rw [dget_cons_ne hp', dget_cons_ne hp']
        exact ih

theorem dset_of_absent {α : Type} {d : List (String × α)} {k : String} (v : α)
    (h : dmem d k = false) : dset d k v = d ++ [(k, v)] := by
  unfold dset
  rw [h]
  rfl

theorem dget_append_left {α : Type} {d e : List (String × α)} {k : String} {v : α}
    (h : dget d k = some v) : dget (d ++ e) k = some v := by
  unfold dget at h ⊢
  rw [List.find?_append]
  cases hf : d.find? (fun p => p.1 = k) with
  | none => rw [hf] at h; exact absurd h (by simp)
  | some p => rw [hf] at h; simpa [Option.or] using h

theorem dget_append_right_of_absent {α : Type} {d : List (String × α)} {k : String}
    (e : List (String × α)) (h : dmem d k = false) :
    dget (d ++ e) k = dget e k := by
  have hd := dget_eq_none_of_dmem_false h
  unfold dget at hd ⊢
  rw [List.find?_append]
  cases hf : d.find? (fun p => p.1 = k) with
  | none => simp [Option.or]
  | some p => rw [hf] at hd; simp at hd

theorem dget_dset_self {α : Type} (d : List (String × α)) (k : String) (v : α) :
    dget (dset d k v) k = some v := by
  unfold dset
  by_cases h : dmem d k
  · rw [if_pos h, dget_map_set_self, if_pos h]
  · rw [if_neg h]
    rw [dget_append_right_of_absent _ (by simpa using h)]
    exact dget_cons_eq rfl

theorem dget_dset_ne {α : Type} (d : List (String × α)) (k k' : String) (v : α)
    (h : k' ≠ k) : dget (dset d k v) k' = dget d k' := by
  unfold dset
  by_cases hm : dmem d k
  · rw [if_pos hm, dget_map_set_ne _ _ _ _ h]
  · rw [if_neg hm]
    cases hf : dget d k' with
    | some w => exact dget_append_left hf
    | none =>
      rw [dget_append_right_of_absent _ (by rw [dmem_eq_isSome_dget, hf]; rfl),
        dget_cons_ne (fun c => h c.symm)]
      rfl

theorem dmem_dset_self {α : Type} (d : List (String × α)) (k : String) (v : α) :
    dmem (dset d k v) k = true := by
  rw [dmem_eq_isSome_dget, dget_dset_self]
  rfl

theorem dmem_dset_ne {α : Type} (d : List (String × α)) (k k' : String) (v : α)
    (h : k' ≠ k) : dmem (dset d k v) k' = dmem d k' := by
  rw [dmem_eq_isSome_dget, dmem_eq_isSome_dget, dget_dset_ne _ _ _ _ h]

theorem mem_dset {α : Type} {q : String × α} {d : List (String × α)} {k : String}
    {v : α} (h : q ∈ dset d k v) : q ∈ d ∨ q = (k, v) := by
  unfold dset at h
  by_cases hm : dmem d k
  · rw [if_pos hm] at h
    rcases List.mem_map.mp h with ⟨p, hp, hpq⟩
    by_cases hk : p.1 = k
    · right; rw [if_pos hk] at hpq; exact hpq.symm
    · left; rw [if_neg hk] at hpq; exact hpq ▸ hp
  · rw [if_neg hm] at h
    rcases List.mem_append.mp h with h | h
    · exact Or.inl h
    · right; simpa using h

theorem mem_dset_self {α : Type} (d : List (String × α)) (k : String) (v : α) :
    (k, v) ∈ dset d k v := by
  unfold dset
  by_cases hm : dmem d k
  · rw [if_pos hm]
    rcases List.any_eq_true.mp hm with ⟨p, hp, hpk⟩
    refine List.mem_map.mpr ⟨p, hp, ?_⟩
    rw [if_pos (by simpa using hpk)]
  · rw [if_neg hm]
    exact List.mem_append.mpr (Or.inr (by simp))

theorem mem_pyDict_fold {α : Type} {q : String × α} :
    ∀ (l acc : List (String × α)),
      q ∈ l.foldl (fun d p => dset d p.1 p.2) acc → q ∈ acc ∨ q ∈ l := by
  intro l
  induction l with
  | nil => intro acc h; exact Or.inl h
  | cons p l ih =>
    intro acc h
    rcases ih (dset acc p.1 p.2) h with h1 | h1
    · rcases mem_dset h1 with h2 | h2
      · exact Or.inl h2
      · right; rw [h2, Prod.mk.eta]; exact List.mem_cons_self p l
    · right; right; exact h1

theorem mem_pyDict {α : Type} {q : String × α} {l : List (String × α)}
    (h : q ∈ pyDict l) : q ∈ l := by
  rcases mem_pyDict_fold l [] h with h1 | h1
  · cases h1
  · exact h1

theorem dget_pyDict_fold {α : Type} :
    ∀ (l acc : List (String × α)) (k : String),
      dget (l.foldl (fun d p => dset d p.1 p.2) acc) k =
        match l.reverse.find? (fun p => p.1 = k) with
        | some p => some p.2
        | none => dget acc k := by
  intro l
  induction l with
  | nil => intro acc k; rfl
  | cons p l ih =>
    intro acc k
    simp only [List.foldl_cons, List.reverse_cons]
    rw [ih]
    rw [List.find?_append]
    cases hf : l.reverse.find? (fun p => p.1 = k) with
    | some r => simp [Option.or]
    | none =>
      simp only [Option.or]
      by_cases hk : p.1 = k
      · have h1 : [p].find? (fun p => p.1 = k) = some p := by
          simp [List.find?, hk]
        rw [h1]
        have : k = p.1 := hk.symm
        subst this
        rw [dget_dset_self]
      · have h1 : [p].find? (fun p => p.1 = k) = none := by
          simp [List.find?, hk]
        rw [h1, dget_dset_ne _ _ _ _ (fun c => hk c.symm)]

theorem dget_pyDict {α : Type} (l : List (String × α)) (k : String) :
    dget (pyDict l) k =
      (l.reverse.find? (fun p => p.1 = k)).map Prod.snd := by
  unfold pyDict
  rw [dget_pyDict_fold]
  cases l.reverse.find? (fun p => p.1 = k) with
  | some p => rfl
  | none => rfl

theorem dmem_pyDict {α : Type} (l : List (String × α)) (k : String) :
    dmem (pyDict l) k = l.any (fun p => p.1 = k) := by
  rw [dmem_eq_isSome_dget, dget_pyDict]
  cases hf : l.reverse.find? (fun p => p.1 = k) with
  | some p =>
    have : l.reverse.any (fun p => p.1 = k) = true :=
      List.any_eq_true.mpr ⟨p, List.mem_of_find?_eq_some hf, by
        have := List.find?_some hf; simpa using this⟩
    rw [List.any_reverse] at this
    rw [this]; rfl
  | none =>
    have h1 := List.find?_eq_none.mp hf
    have h2 : l.any (fun p => p.1 = k) = false := by
      cases hc : l.any (fun p => p.1 = k) with
      | false => rfl
      | true =>
        rcases List.any_eq_true.mp hc with ⟨x, hx, hxk⟩
        exact absurd hxk (h1 x (List.mem_reverse.mpr hx))
    rw [h2]; rfl

/-! Lemmas about the state constructors and the linker. -/

theorem bfalse {b : Bool} (h : ¬(b = true)) : b = false := by
  cases b
  · rfl
  · exact absurd rfl h

theorem linkPrev_action (s : StateNode) (nm : String) :
    (linkPrev s nm).action = s.action := by
  unfold linkPrev
  split_ifs <;> rfl

theorem linkPrev_isChoice (s : StateNode) (nm : String) :
    (linkPrev s nm).isChoice = s.isChoice := by
  unfold linkPrev
  split_ifs <;> rfl

theorem linkPrev_name (s : StateNode) (nm : String) :
    (linkPrev s nm).name = s.name := by
  unfold StateNode.name
  rw [linkPrev_action]

theorem linkPrev_dget_eq (s : StateNode) (nm k : String) (h1 : k ≠ "Default")
    (h2 : k ≠ "Next") : dget (linkPrev s nm).state k = dget s.state k := by
  unfold linkPrev
  split_ifs with hc hd hn
  · rfl
  · exact dget_dset_ne _ _ _ _ h1
  · rfl
  · exact dget_dset_ne _ _ _ _ h2

theorem linkPrev_dmem_eq (s : StateNode) (nm k : String) (h1 : k ≠ "Default")
    (h2 : k ≠ "Next") : dmem (linkPrev s nm).state k = dmem s.state k := by
  rw [dmem_eq_isSome_dget, dmem_eq_isSome_dget, linkPrev_dget_eq _ _ _ h1 h2]

theorem linkPrev_dget_preserve {s : StateNode} {nm k : String} {v : JVal}
    (h : dget s.state k = some v) : dget (linkPrev s nm).state k = some v := by
  unfold linkPrev
  split_ifs with hc hd hn
  · exact h
  · by_cases hk : k = "Default"
    · subst hk
      rw [dget_eq_none_of_dmem_false (bfalse hd)] at h
      exact absurd h (by simp)
    · rw [dget_dset_ne _ _ _ _ hk]; exact h
  · exact h
  · by_cases hk : k = "Next"
    · subst hk
      have hnx : dmem s.state "Next" = false := by
        simp only [Bool.or_eq_true, not_or, Bool.not_eq_true] at hn
        exact hn.1
      rw [dget_eq_none_of_dmem_false hnx] at h
      exact absurd h (by simp)
    · rw [dget_dset_ne _ _ _ _ hk]; exact h

theorem linkPrev_dmem_default_choice (s : StateNode) (nm : String)
    (h : s.isChoice = true) : dmem (linkPrev s nm).state "Default" = true := by
  unfold linkPrev
  rw [if_pos h]
  by_cases hd : dmem s.state "Default" = true
  · rw [if_pos hd]; exact hd
  · rw [if_neg hd]; exact dmem_dset_self _ _ _

theorem endMarkIf_action (la a : Action) (st : StateNode) :
    (endMarkIf la a st).action = st.action := by
  unfold endMarkIf
  split_ifs <;> rfl

theorem endMarkIf_isChoice (la a : Action) (st : StateNode) :
    (endMarkIf la a st).isChoice = st.isChoice := by
  unfold endMarkIf
  split_ifs <;> rfl

theorem endMarkIf_name (la a : Action) (st : StateNode) :
    (endMarkIf la a st).name = st.name := by
  unfold StateNode.name
  rw [endMarkIf_action]

theorem endMarkIf_dget_eq (la a : Action) (st : StateNode) (k : String)
    (h : k ≠ "End") : dget (endMarkIf la a st).state k = dget st.state k := by
  unfold endMarkIf
  split_ifs with hc
  · exact dget_dset_ne _ _ _ _ h
  · rfl

theorem endMarkIf_dmem_eq (la a : Action) (st : StateNode) (k : String)
    (h : k ≠ "End") : dmem (endMarkIf la a st).state k = dmem st.state k := by
  rw [dmem_eq_isSome_dget, dmem_eq_isSome_dget, endMarkIf_dget_eq _ _ _ _ h]

theorem endMarkIf_self (la : Action) (st : StateNode) :
    dmem st.state "Next" = false →
    (endMarkIf la la st).state = dset st.state "End" (JVal.bool true) := by
  intro h
  unfold endMarkIf
  rw [if_pos (by simp [h])]

theorem endMarkIf_of_next (la a : Action) (st : StateNode)
    (h : dmem st.state "Next" = true) : endMarkIf la a st = st := by
  unfold endMarkIf
  rw [if_neg (by simp [h])]

theorem addGoto_dget_ne (g : Option String) (d : List (String × JVal)) (k : String)
    (h1 : k ≠ "Next") (h2 : k ≠ "End") : dget (addGoto g d) k = dget d k := by
  cases g with
  | none => rfl
  | some s =>
    simp only [addGoto, getGotoEntry]
    by_cases hs : s = "End"
    · rw [if_pos hs]
      exact dget_dset_ne _ _ _ _ h2
    · rw [if_neg hs]
      exact dget_dset_ne _ _ _ _ h1

theorem addGoto_dmem_ne (g : Option String) (d : List (String × JVal)) (k : String)
    (h1 : k ≠ "Next") (h2 : k ≠ "End") : dmem (addGoto g d) k = dmem d k := by
  rw [dmem_eq_isSome_dget, dmem_eq_isSome_dget, addGoto_dget_ne _ _ _ h1 h2]

theorem addGoto_not_both (g : Option String) (d : List (String × JVal))
    (hn : dmem d "Next" = false) (he : dmem d "End" = false) :
    dmem (addGoto g d) "Next" = true → dmem (addGoto g d) "End" = false := by
  intro h
  cases g with
  | none => exact absurd (hn ▸ h) (by simp)
  | some s =>
    simp only [addGoto, getGotoEntry] at h ⊢
    by_cases hs : s = "End"
    · rw [if_pos hs] at h
      rw [dmem_dset_ne _ _ _ _ (by decide)] at h
      exact absurd (hn ▸ h) (by simp)
    · rw [if_neg hs]
      rw [dmem_dset_ne _ _ _ _ (by decide)]
      exact he

theorem mkChoiceState_ok {a : Action} {st : StateNode}
    (h : mkChoiceState a = .ok st) :
    st.action = a ∧ st.isChoice = true ∧
      ∃ seq : List JVal,
        st.state = (match a.default with
          | some v =>
            dset [("Type", JVal.str "Choice"), ("Choices", JVal.arr seq)] "Default" v
          | none => [("Type", JVal.str "Choice"), ("Choices", JVal.arr seq)]) := by
  cases hc : a.choices with
  | none => simp [mkChoiceState, hc] at h
  | some items =>
    cases hs : choicesSeq items with
    | error e => simp [mkChoiceState, hc, hs] at h
    | ok seq =>
      simp only [mkChoiceState, hc, hs, Except.ok.injEq] at h
      subst h
      exact ⟨rfl, rfl, seq, rfl⟩

theorem mkChoiceState_dmem_default {a : Action} {st : StateNode}
    (h : mkChoiceState a = .ok st) :
    dmem st.state "Default" = a.default.isSome := by
  obtain ⟨-, -, seq, hst⟩ := mkChoiceState_ok h
  rw [hst]
  cases a.default with
  | some v => rw [dmem_dset_self]; rfl
  | none => simp [dmem]

theorem mkChoiceState_no_next_end {a : Action} {st : StateNode}
    (h : mkChoiceState a = .ok st) :
    dmem st.state "Next" = false ∧ dmem st.state "End" = false ∧
      dget st.state "Catch" = none := by
  obtain ⟨-, -, seq, hst⟩ := mkChoiceState_ok h
  rw [hst]
  cases a.default with
  | some v =>
    refine ⟨?_, ?_, ?_⟩
    · rw [dmem_dset_ne _ _ _ _ (by decide)]; simp [dmem]
    · rw [dmem_dset_ne _ _ _ _ (by decide)]; simp [dmem]
    · rw [dget_dset_ne _ _ _ _ (by decide)]
      simp [dget, List.find?]
  | none =>
    exact ⟨by simp [dmem], by simp [dmem], by simp [dget, List.find?]⟩

theorem mkTechState_ok {a : Action} {st : StateNode}
    (h : mkTechState a = .ok st) :
    st.action = a ∧ st.isChoice = false ∧
      (∀ v, dget st.state "Catch" = some v → v = techCatchVal) ∧
      (dmem st.state "Next" = true → dmem st.state "End" = false) := by
  cases ht : a.tech with
  | none => simp [mkTechState, ht] at h
  | some t =>
    cases hs : t.service with
    | none => simp [mkTechState, ht, hs] at h
    | some sv =>
      cases hg : getCallData a t with
      | error e => simp [mkTechState, ht, hs, hg] at h
      | ok params =>
        simp only [mkTechState, ht, hs, hg, Except.ok.injEq] at h
        subst h
        have hgetc : dget (techStateDict a t sv params) "Catch" = some techCatchVal := by
          have h1 : dget (addGoto a.goto
              [("Type", JVal.str "Task"),
               ("Resource", JVal.str ("arn:aws:lambda:eu-west-1:935392763270:function:"
                  ++ JVal.render sv)),
               ("InputPath", JVal.str "$"),
               ("ResultPath", JVal.str ("$." ++ slugOf (actionName a) ++ ".result")),
               ("OutputPath", JVal.str "$"),
               ("Parameters", params),
               ("Catch", techCatchVal)]) "Catch" = some techCatchVal := by
            rw [addGoto_dget_ne _ _ _ (by decide) (by decide)]
            simp [dget, List.find?]
          cases hto : t.timeout with
          | none => simp only [techStateDict, hto]; exact h1
          | some tv =>
            simp only [techStateDict, hto]
            by_cases htv : tv ≠ JVal.null
            · rw [if_pos htv, dget_dset_ne _ _ _ _ (by decide)]
              exact h1
            · rw [if_neg htv]
              exact h1
        refine ⟨rfl, rfl, ?_, ?_⟩
        · intro v hv
          simp only at hv
          rw [hgetc] at hv
          exact (Option.some.injEq _ _ ▸ hv).symm
        · intro hnx
          simp only at hnx ⊢
          have hng := addGoto_not_both a.goto
            [("Type", JVal.str "Task"),
             ("Resource", JVal.str ("arn:aws:lambda:eu-west-1:935392763270:function:"
                ++ JVal.render sv)),
             ("InputPath", JVal.str "$"),
             ("ResultPath", JVal.str ("$." ++ slugOf (actionName a) ++ ".result")),
             ("OutputPath", JVal.str "$"),
             ("Parameters", params),
             ("Catch", techCatchVal)] (by simp [dmem]) (by simp [dmem])
          cases hto : t.timeout with
          | none =>
            simp only [techStateDict, hto] at hnx ⊢
            exact hng hnx
          | some tv =>
            simp only [techStateDict, hto] at hnx ⊢
            by_cases htv : tv ≠ JVal.null
            · rw [if_pos htv] at hnx ⊢
              rw [dmem_dset_ne _ _ _ _ (by decide)] at hnx ⊢
              exact hng hnx
            · rw [if_neg htv] at hnx ⊢
              exact hng hnx

theorem mkWaitState_ok (a : Action) (w : JVal) :
    (mkWaitState a w).action = a ∧ (mkWaitState a w).isChoice = false ∧
      (∀ v, dget (mkWaitState a w).state "Catch" = some v → v = techCatchVal) ∧
      (dmem (mkWaitState a w).state "Next" = true →
        dmem (mkWaitState a w).state "End" = false) := by
  refine ⟨rfl, rfl, ?_, ?_⟩
  · intro v hv
    simp only [mkWaitState] at hv
    rw [addGoto_dget_ne _ _ _ (by decide) (by decide)] at hv
    simp [dget, List.find?] at hv
  · intro hnx
    simp only [mkWaitState] at hnx ⊢
    exact addGoto_not_both a.goto _ (by simp [dmem]) (by simp [dmem]) hnx

theorem newStateCore_ok {a : Action} {st : StateNode}
    (h : newStateCore a = .ok st) :
    st.action = a ∧ st.isChoice = a.choices.isSome ∧
      (dmem st.state "Next" = true → dmem st.state "End" = false) ∧
      (∀ v, dget st.state "Catch" = some v → v = techCatchVal) ∧
      (a.choices.isSome = true → dmem st.state "Default" = a.default.isSome) := by
  unfold newStateCore at h
  by_cases hc : a.choices.isSome = true
  · rw [if_pos hc] at h
    obtain ⟨h1, h2, -⟩ := mkChoiceState_ok h
    obtain ⟨h3, h4, h5⟩ := mkChoiceState_no_next_end h
    refine ⟨h1, by rw [h2, hc], ?_, ?_, ?_⟩
    · intro hx; rw [h3] at hx; exact absurd hx (by simp)
    · intro v hv; rw [h5] at hv; exact absurd hv (by simp)
    · intro _; exact mkChoiceState_dmem_default h
  · rw [if_neg hc] at h
    by_cases htc : a.tech.isSome = true
    · rw [if_pos htc] at h
      obtain ⟨h1, h2, h3, h4⟩ := mkTechState_ok h
      refine ⟨h1, ?_, h4, h3, ?_⟩
      · rw [h2, bfalse hc]
      · intro hcc; exact absurd hcc hc
    · rw [if_neg htc] at h
      cases hw : a.wait with
      | none => rw [hw] at h; exact absurd h (by simp)
      | some w =>
        rw [hw] at h
        simp only [Except.ok.injEq] at h
        subst h
        obtain ⟨h1, h2, h3, h4⟩ := mkWaitState_ok a w
        refine ⟨h1, ?_, h4, h3, ?_⟩
        · rw [h2, bfalse hc]
        · intro hcc; exact absurd hcc hc

/-! Structural lemmas about the add_actions loop. -/

theorem aux_cons_ok {la : Action} {prev : StateNode} {a : Action} {rest : List Action}
    {p : StateNode} {ns : List StateNode}
    (h : addActionsAux la prev (a :: rest) = .ok (p, ns)) :
    ∃ st stf ns', newStateCore a = .ok st ∧ p = linkPrev prev st.name ∧
      ns = stf :: ns' ∧ addActionsAux la (endMarkIf la a st) rest = .ok (stf, ns') := by
  cases hst : newStateCore a with
  | error e => simp [addActionsAux, hst] at h
  | ok st =>
    cases hrec : addActionsAux la (endMarkIf la a st) rest with
    | error e => simp [addActionsAux, hst, hrec] at h
    | ok pr =>
      obtain ⟨stf, ns'⟩ := pr
      simp only [addActionsAux, hst, hrec, Except.ok.injEq, Prod.mk.injEq] at h
      exact ⟨st, stf, ns', rfl, h.1.symm, h.2.symm, hrec⟩

theorem aux_length {la : Action} :
    ∀ {acts : List Action} {prev p : StateNode} {ns : List StateNode},
      addActionsAux la prev acts = .ok (p, ns) → ns.length = acts.length := by
  intro acts
  induction acts with
  | nil =>
    intro prev p ns h
    simp only [addActionsAux, Except.ok.injEq, Prod.mk.injEq] at h
    rw [← h.2]
    rfl
  | cons a rest ih =>
    intro prev p ns h
    obtain ⟨st, stf, ns', hst, hp, hns, hrec⟩ := aux_cons_ok h
    subst hns
    simp [List.length_cons, ih hrec]

theorem aux_get {la : Action} :
    ∀ {acts : List Action} {prev p : StateNode} {ns : List StateNode},
      addActionsAux la prev acts = .ok (p, ns) →
      ∀ i a, acts[i]? = some a →
        ∃ st, newStateCore a = .ok st ∧
          (acts[i + 1]? = none → ns[i]? = some (endMarkIf la a st)) ∧
          (∀ b stb, acts[i + 1]? = some b → newStateCore b = .ok stb →
            ns[i]? = some (linkPrev (endMarkIf la a st) stb.name)) := by
  intro acts
  induction acts with
  | nil =>
    intro prev p ns h i a ha
    simp at ha
  | cons a0 rest ih =>
    intro prev p ns h i a ha
    obtain ⟨st0, stf, ns', hst0, hp, hns, hrec⟩ := aux_cons_ok h
    subst hns
    cases i with
    | zero =>
      simp only [List.getElem?_cons_zero, Option.some.injEq] at ha
      subst ha
      refine ⟨st0, hst0, ?_, ?_⟩
      · intro h1
        rw [List.getElem?_cons_succ] at h1
        have hrestnil : rest = [] := by
          cases rest with
          | nil => rfl
          | cons b r => simp at h1
        subst hrestnil
        simp only [addActionsAux, Except.ok.injEq, Prod.mk.injEq] at hrec
        rw [List.getElem?_cons_zero, hrec.1]
      · intro b stb h1 h2
        rw [List.getElem?_cons_succ] at h1
        cases rest with
        | nil => simp at h1
        | cons b0 r =>
          simp only [List.getElem?_cons_zero, Option.some.injEq] at h1
          subst h1
          obtain ⟨st1, stf', ns'', hst1, hpf, hns2, hrec2⟩ := aux_cons_ok hrec
          rw [hst1] at h2
          simp only [Except.ok.injEq] at h2
          subst h2
          rw [List.getElem?_cons_zero, hpf]
    | succ j =>
      rw [List.getElem?_cons_succ] at ha
      obtain ⟨st, hst, hA, hB⟩ := ih hrec j a ha
      refine ⟨st, hst, ?_, ?_⟩
      · intro h1
        rw [List.getElem?_cons_succ] at h1
        rw [List.getElem?_cons_succ]
        exact hA h1
      · intro b stb h1 h2
        rw [List.getElem?_cons_succ] at h1
        rw [List.getElem?_cons_succ]
        exact hB b stb h1 h2

theorem add_actions_unfold {sts : List StateNode} {acts : List Action}
    {out : List StateNode} (h : add_actions sts acts = .ok out) :
    ∃ la prev p ns, acts.getLast? = some la ∧ sts.getLast? = some prev ∧
      addActionsAux la prev acts = .ok (p, ns) ∧
      out = sts.dropLast ++ p :: ns ∧ ns.length = acts.length ∧
      ∀ i, out[sts.length + i]? = ns[i]? := by
  cases hla : acts.getLast? with
  | none => simp [add_actions, hla] at h
  | some la =>
    cases hprev : sts.getLast? with
    | none => simp [add_actions, hla, hprev] at h
    | some prev =>
      cases haux : addActionsAux la prev acts with
      | error e => simp [add_actions, hla, hprev, haux] at h
      | ok pr =>
        obtain ⟨p, ns⟩ := pr
        simp only [add_actions, hla, hprev, haux, Except.ok.injEq] at h
        refine ⟨la, prev, p, ns, rfl, rfl, haux, h.symm, aux_length haux, ?_⟩
        intro i
        rw [← h]
        have hsts : sts ≠ [] := by
          intro c; rw [c] at hprev; simp at hprev
        have hpos : 0 < sts.length := List.length_pos.mpr hsts
        have h1 : sts.dropLast.length = sts.length - 1 := List.length_dropLast sts
        rw [List.getElem?_append_right (by rw [h1]; omega)]
        have h2 : sts.length + i - sts.dropLast.length = i + 1 := by
          rw [h1]; omega
        rw [h2, List.getElem?_cons_succ]

theorem buildAllStates_unfold {d : Doc} {out : List StateNode}
    (h : buildAllStates d = .ok out) :
    ∃ acts allStates second f rest,
      d.states = some acts ∧
      add_actions [mkPassState initAction] acts = .ok allStates ∧
      allStates[1]? = some second ∧ allStates = f :: rest ∧
      ((d.catchKey = none ∧
        out = (initUpdate f second.name :: rest) ++ [mkEndState fallbackAction]) ∨
       (∃ c, d.catchKey = some c ∧
        add_actions ((initUpdate f second.name :: rest) ++ [mkPassState fallbackAction]) c
          = .ok out)) := by
  cases hst : d.states with
  | none => simp [buildAllStates, hst] at h
  | some acts =>
    cases hadd : add_actions [mkPassState initAction] acts with
    | error e => simp [buildAllStates, hst, hadd] at h
    | ok allStates =>
      cases hsec : allStates[1]? with
      | none => simp [buildAllStates, hst, hadd, hsec] at h
      | some second =>
        cases hAS : allStates with
        | nil => rw [hAS] at hsec; simp at hsec
        | cons f rest =>
          have hsec2 : (f :: rest)[1]? = some second := by rw [← hAS]; exact hsec
          refine ⟨acts, allStates, second, f, rest, rfl, hadd, hsec, hAS, ?_⟩
          cases hck : d.catchKey with
          | none =>
            left
            refine ⟨rfl, ?_⟩
            simp only [buildAllStates, hst, hadd, hAS, hsec2, hck,
              Except.ok.injEq] at h
            rw [← h]
          | some c =>
            right
            refine ⟨c, rfl, ?_⟩
            simp only [buildAllStates, hst, hadd, hAS, hsec2, hck] at h
            exact h

theorem aux_fst_char {la : Action} {prev p : StateNode} {acts : List Action}
    {ns : List StateNode} (h : addActionsAux la prev acts = .ok (p, ns)) :
    (acts = [] ∧ p = prev) ∨
      (∃ a rest st, acts = a :: rest ∧ newStateCore a = .ok st ∧
        p = linkPrev prev st.name) := by
  cases acts with
  | nil =>
    left
    simp only [addActionsAux, Except.ok.injEq, Prod.mk.injEq] at h
    exact ⟨rfl, h.1.symm⟩
  | cons a rest =>
    right
    obtain ⟨st, stf, ns', hst, hp, -, -⟩ := aux_cons_ok h
    exact ⟨a, rest, st, rfl, hst, hp⟩

theorem linkPrev_passFallback (nm : String) :
    linkPrev (mkPassState fallbackAction) nm =
      { action := fallbackAction, isChoice := false,
        state := [("Type", JVal.str "Pass"), ("Next", JVal.str nm)] } := by
  simp [linkPrev, mkPassState, dset, dmem]

theorem mkEndState_fallback :
    mkEndState fallbackAction =
      { action := fallbackAction, isChoice := false,
        state := [("Type", JVal.str "Pass"), ("End", JVal.bool true)] } := by
  simp [mkEndState, mkPassState, dset, dmem]

/-- Where the fallback state sits in the output of buildAllStates, and
what it looks like in the two catch cases. -/
theorem fallback_in_build {d : Doc} {out : List StateNode}
    (h : buildAllStates d = .ok out) :
    ∃ pre fb tail, out = pre ++ fb :: tail ∧ fb.action = fallbackAction ∧
      fb.isChoice = false ∧
      (d.catchKey = none → tail = [] ∧
        fb.state = [("Type", JVal.str "Pass"), ("End", JVal.bool true)]) ∧
      (∀ c, d.catchKey = some c → ∃ first rest2 a0 as0,
        tail = first :: rest2 ∧ c = a0 :: as0 ∧ first.action = a0 ∧
        fb.state = [("Type", JVal.str "Pass"), ("Next", JVal.str first.name)]) := by
  obtain ⟨acts, allStates, second, f, rest, hst, hadd, hsec, hAS, hcase⟩ :=
    buildAllStates_unfold h
  rcases hcase with ⟨hck, hout⟩ | ⟨c, hck, hout⟩
  · refine ⟨initUpdate f second.name :: rest, mkEndState fallbackAction, [],
      by rw [hout], rfl, rfl, ?_, ?_⟩
    · intro _
      exact ⟨rfl, by rw [mkEndState_fallback]⟩
    · intro c hc
      rw [hck] at hc
      exact absurd hc (by simp)
  · obtain ⟨la, prev, p, ns, hla, hprev, haux, hout2, hlen, -⟩ :=
      add_actions_unfold hout
    rw [List.getLast?_concat] at hprev
    have hprev2 : prev = mkPassState fallbackAction := by
      simpa using hprev.symm
    subst hprev2
    rw [List.dropLast_concat] at hout2
    cases hc0 : c with
    | nil => rw [hc0] at hla; simp at hla
    | cons a0 as0 =>
      rw [hc0] at haux
      obtain ⟨st, stf, ns', hstc, hp, hns, hrec⟩ := aux_cons_ok haux
      have hstfName : stf.name = st.name := by
        rcases aux_fst_char hrec with ⟨-, hpp⟩ | ⟨b, r, stb, -, -, hpp⟩
        · rw [hpp, endMarkIf_name]
        · rw [hpp, linkPrev_name, endMarkIf_name]
      have hstfAct : stf.action = a0 := by
        have ha := (newStateCore_ok hstc).1
        rcases aux_fst_char hrec with ⟨-, hpp⟩ | ⟨b, r, stb, -, -, hpp⟩
        · rw [hpp, endMarkIf_action, ha]
        · rw [hpp, linkPrev_action, endMarkIf_action, ha]
      refine ⟨initUpdate f second.name :: rest, p, ns, ?_, ?_, ?_, ?_, ?_⟩
      · rw [hout2]
      · rw [hp, linkPrev_passFallback]
      · rw [hp, linkPrev_passFallback]
      · intro hcn; rw [hck] at hcn; exact absurd hcn (by simp)
      · intro c' hc'
        rw [hck] at hc'
        have hcc : c = c' := by simpa using hc'
        refine ⟨stf, ns', a0, as0, hns, ?_, hstfAct, ?_⟩
        · rw [← hcc, hc0]
        · rw [hp, linkPrev_passFallback, hstfName]

/-! The Catch entries of every emitted state hold the two fixed catch
clauses: this is the invariant behind the always-resolving catch
targets. -/

theorem aux_catchOk {la : Action} :
    ∀ {acts : List Action} {prev p : StateNode} {ns : List StateNode},
      addActionsAux la prev acts = .ok (p, ns) →
      (∀ v, dget prev.state "Catch" = some v → v = techCatchVal) →
      (∀ v, dget p.state "Catch" = some v → v = techCatchVal) ∧
      (∀ s ∈ ns, ∀ v, dget s.state "Catch" = some v → v = techCatchVal) := by
  intro acts
  induction acts with
  | nil =>
    intro prev p ns h hprev
    simp only [addActionsAux, Except.ok.injEq, Prod.mk.injEq] at h
    refine ⟨?_, ?_⟩
    · rw [← h.1]; exact hprev
    · rw [← h.2]; intro s hs; cases hs
  | cons a rest ih =>
    intro prev p ns h hprev
    obtain ⟨st, stf, ns', hst, hp, hns, hrec⟩ := aux_cons_ok h
    have hstC := (newStateCore_ok hst).2.2.2.1
    have hmarkC : ∀ v, dget (endMarkIf la a st).state "Catch" = some v →
        v = techCatchVal := by
      intro v hv
      rw [endMarkIf_dget_eq _ _ _ _ (by decide)] at hv
      exact hstC v hv
    obtain ⟨hstfC, hns'C⟩ := ih hrec hmarkC
    refine ⟨?_, ?_⟩
    · intro v hv
      rw [hp, linkPrev_dget_eq _ _ _ (by decide) (by decide)] at hv
      exact hprev v hv
    · intro s hs
      rw [hns] at hs
      rcases List.mem_cons.mp hs with hs | hs
      · rw [hs]; exact hstfC
      · exact hns'C s hs

theorem add_actions_catchOk {sts : List StateNode} {acts : List Action}
    {out : List StateNode} (h : add_actions sts acts = .ok out)
    (hsts : ∀ s ∈ sts, ∀ v, dget s.state "Catch" = some v → v = techCatchVal) :
    ∀ s ∈ out, ∀ v, dget s.state "Catch" = some v → v = techCatchVal := by
  obtain ⟨la, prev, p, ns, hla, hprev, haux, hout, -, -⟩ := add_actions_unfold h
  have hprevC := hsts prev (List.mem_of_mem_getLast? hprev)
  obtain ⟨hpC, hnsC⟩ := aux_catchOk haux hprevC
  rw [hout]
  intro s hs
  rcases List.mem_append.mp hs with hs | hs
  · exact hsts s (List.dropLast_subset sts hs)
  · rcases List.mem_cons.mp hs with hs | hs
    · rw [hs]; exact hpC
    · exact hnsC s hs

theorem buildAllStates_catchOk {d : Doc} {out : List StateNode}
    (h : buildAllStates d = .ok out) :
    ∀ s ∈ out, ∀ v, dget s.state "Catch" = some v → v = techCatchVal := by
  obtain ⟨acts, allStates, second, f, rest, hst, hadd, hsec, hAS, hcase⟩ :=
    buildAllStates_unfold h
  have hinit : ∀ s ∈ [mkPassState initAction], ∀ v,
      dget s.state "Catch" = some v → v = techCatchVal := by
    intro s hs v hv
    rcases List.mem_cons.mp hs with hs | hs
    · rw [hs] at hv
      simp [mkPassState, dget, List.find?] at hv
    · cases hs
  have hallC := add_actions_catchOk hadd hinit
  have hfC : ∀ v, dget f.state "Catch" = some v → v = techCatchVal := by
    intro v hv
    exact hallC f (by rw [hAS]; exact List.mem_cons_self f rest) v hv
  have hupdC : ∀ v, dget (initUpdate f second.name).state "Catch" = some v →
      v = techCatchVal := by
    intro v hv
    simp only [initUpdate] at hv
    rw [dget_dset_ne _ _ _ _ (by decide), dget_dset_ne _ _ _ _ (by decide)] at hv
    exact hfC v hv
  have hrestC : ∀ s ∈ rest, ∀ v, dget s.state "Catch" = some v →
      v = techCatchVal := by
    intro s hs
    exact hallC s (by rw [hAS]; exact List.mem_cons_of_mem f hs)
  have hbaseC : ∀ s ∈ initUpdate f second.name :: rest, ∀ v,
      dget s.state "Catch" = some v → v = techCatchVal := by
    intro s hs
    rcases List.mem_cons.mp hs with hs | hs
    · rw [hs]; exact hupdC
    · exact hrestC s hs
  rcases hcase with ⟨hck, hout⟩ | ⟨c, hck, hout⟩
  · rw [hout]
    intro s hs
    rcases List.mem_append.mp hs with hs | hs
    · exact hbaseC s hs
    · rcases List.mem_cons.mp hs with hs | hs
      · rw [hs, mkEndState_fallback]
        intro v hv
        simp [dget, List.find?] at hv
      · cases hs
  · refine add_actions_catchOk hout ?_
    intro s hs
    rcases List.mem_append.mp hs with hs | hs
    · exact hbaseC s hs
    · rcases List.mem_cons.mp hs with hs | hs
      · rw [hs]
        intro v hv
        simp [mkPassState, dget, List.find?] at hv
      · cases hs

/-! The claims. -/

/-- Claim C1, counterexample: on a document without a catch key the
compiled fallback state is a Pass state marked End: true, not a Succeed
state as the claim asserts. -/
theorem c1_counterexample :
    isOkE (create_step_function "m" (some c1docA)) = true ∧
    dget (okSfn (create_step_function "m" (some c1docA))).States
      LAMBDA_ERROR_FALLBACK =
      some [("Type", JVal.str "Pass"), ("End", JVal.bool true)] ∧
    dget [("Type", JVal.str "Pass"), ("End", JVal.bool true)] "Type" ≠
      some (JVal.str "Succeed") := by
  decide

/-- Claim C1 (amended): the Error-Fallback Injector appends exactly one
reserved-name fallback state after the main state sequence; for a
document without a catch key it is a terminal Pass state (Type Pass,
End true); for a document with a catch key it is a Pass state whose
explicit-next edge names the first state compiled from the catch action
list. -/
theorem c1_fallback_injection (d : Doc) (out : List StateNode)
    (h : buildAllStates d = .ok out) :
    (d.catchKey = none → ∃ pre, out = pre ++ [fbEndNode]) ∧
    (∀ c, d.catchKey = some c → ∃ pre first rest a0 as0,
      out = pre ++ (fbPassNode first.name :: first :: rest) ∧
      c = a0 :: as0 ∧ first.action = a0) := by
  obtain ⟨pre, fb, tail, hout, hact, hiso, hnone, hsome⟩ := fallback_in_build h
  constructor
  · intro hck
    obtain ⟨htail, hstate⟩ := hnone hck
    refine ⟨pre, ?_⟩
    rw [hout, htail]
    rcases fb with ⟨fa, fc, fs⟩
    simp only at hact hiso hstate
    rw [hact, hiso, hstate]
    rfl
  · intro c hck
    obtain ⟨first, rest2, a0, as0, htail, hc, hfa, hstate⟩ := hsome c hck
    refine ⟨pre, first, rest2, a0, as0, ?_, hc, hfa⟩
    rw [hout, htail]
    rcases fb with ⟨fa, fc, fs⟩
    simp only at hact hiso hstate
    rw [hact, hiso, hstate]
    rfl

/-- Claim C1, witness: the amended statement evaluated on the concrete
document with a one-action catch list. -/
theorem c1_witness : ∃ pre first rest a0 as0,
    okList (buildAllStates c1docB) = pre ++ (fbPassNode first.name :: first :: rest) ∧
    [waitAction "c1" 2] = a0 :: as0 ∧ first.action = a0 :=
  (c1_fallback_injection c1docB (okList (buildAllStates c1docB)) rfl).2
    [waitAction "c1" 2] rfl

/-- Claim C2, counterexample: a goto naming a non-existent state is not
rejected: the document compiles and the emitted state keeps the dangling
target verbatim, while no state of that name exists in the mapping. -/
theorem c2_counterexample :
    isOkE (create_step_function "m" (some c2doc)) = true ∧
    dget (okSfn (create_step_function "m" (some c2doc))).States "s1" =
      some [("Type", JVal.str "Wait"), ("Seconds", JVal.num 5),
        ("Next", JVal.str "nowhere")] ∧
    dmem (okSfn (create_step_function "m" (some c2doc))).States "nowhere" = false := by
  decide

/-- Claim C2 (amended): user-written goto and default targets are
emitted verbatim with no existence check (a dangling jump is not a
compile error); the targets the compiler generates itself do resolve:
the reserved fallback name is always a key of the States mapping of
every successfully compiled document, and every Catch entry of an
emitted state holds exactly the two fixed clauses pointing at it. -/
theorem c2_edge_targets (nm : String) (d : Doc) (out : SfnOut)
    (h : create_step_function nm (some d) = .ok out) :
    dmem out.States LAMBDA_ERROR_FALLBACK = true ∧
    ∀ p ∈ out.States, ∀ v, dget p.2 "Catch" = some v → v = techCatchVal := by
  cases hb : buildAllStates d with
  | error e => simp [create_step_function, hb] at h
  | ok allSt =>
    simp only [create_step_function, hb, Except.ok.injEq] at h
    subst h
    constructor
    · simp only
      rw [dmem_pyDict]
      obtain ⟨pre, fb, tail, hout, hact, -, -, -⟩ := fallback_in_build hb
      refine List.any_eq_true.mpr ⟨(fb.name, fb.state), ?_, ?_⟩
      · exact List.mem_map.mpr ⟨fb, by rw [hout]; simp, rfl⟩
      · have : fb.name = LAMBDA_ERROR_FALLBACK := by
          unfold StateNode.name
          rw [hact]
          rfl
        simp [this]
    · intro p hp v hv
      simp only at hp
      have hmem := mem_pyDict hp
      rcases List.mem_map.mp hmem with ⟨s, hs, hps⟩
      have hp2 : p.2 = s.state := by rw [← hps]
      rw [hp2] at hv
      exact buildAllStates_catchOk hb s hs v hv

/-- Claim C2, witness: the fallback name is a key of the States mapping
of the compiled dangling-goto document. -/
theorem c2_witness :
    dmem (okSfn (create_step_function "m" (some c2doc))).States
      LAMBDA_ERROR_FALLBACK = true :=
  (c2_edge_targets "m" c2doc (okSfn (create_step_function "m" (some c2doc))) rfl).1

/-- Claim C3, counterexample: two distinct actions named dup compile
into four states, two of which share the name dup, and the emitted
mapping has only three entries, the second dup definition having
silently overwritten the first. -/
theorem c3_counterexample :
    isOkE (create_step_function "m" (some c3doc)) = true ∧
    (okList (buildAllStates c3doc)).length = 4 ∧
    (okSfn (create_step_function "m" (some c3doc))).States.length = 3 ∧
    (okList (buildAllStates c3doc)).map StateNode.name =
      ["Init", "dup", "dup", "MicroServiceErrorFallback"] ∧
    dget (okSfn (create_step_function "m" (some c3doc))).States "dup" =
      some [("Type", JVal.str "Wait"), ("Seconds", JVal.num 2),
        ("End", JVal.bool true)] := by
  decide

/-- Claim C3 (amended): compiled state names are not checked for
uniqueness; the emitted States mapping resolves every name to the
definition of the last compiled state bearing it, so an earlier state
with a duplicated name is silently overwritten. -/
theorem c3_name_collisions (nm : String) (d : Doc) (out : SfnOut)
    (allSt : List StateNode) (h : create_step_function nm (some d) = .ok out)
    (hb : buildAllStates d = .ok allSt) (k : String) :
    dget out.States k =
      ((allSt.map (fun s => (s.name, s.state))).reverse.find?
        (fun p => p.1 = k)).map Prod.snd := by
  cases hb2 : buildAllStates d with
  | error e => simp [create_step_function, hb2] at h
  | ok allSt2 =>
    have hAA : allSt2 = allSt := by
      rw [hb2] at hb
      simpa using hb
    subst hAA
    simp only [create_step_function, hb2, Except.ok.injEq] at h
    subst h
    simp only
    exact dget_pyDict _ k

/-- Claim C3, witness: the amended statement evaluated at the key dup of
the concrete duplicate-name document. -/
theorem c3_witness :
    dget (okSfn (create_step_function "m" (some c3doc))).States "dup" =
      (((okList (buildAllStates c3doc)).map (fun s => (s.name, s.state))).reverse.find?
        (fun p => p.1 = "dup")).map Prod.snd :=
  c3_name_collisions "m" c3doc (okSfn (create_step_function "m" (some c3doc)))
    (okList (buildAllStates c3doc)) rfl rfl "dup"

/-- Claim C5 (confirmed): an empty action list always fails with the
EmptyActionList message, for the main list and for a declared catch
list alike, and the whole compilation fails, so no state reaches the
document. -/
theorem c5_empty_actions (sts : List StateNode) (nm : String) (d : Doc) :
    add_actions sts [] = .error "Actions list cannot be empty." ∧
    (d.states = some [] →
      create_step_function nm (some d) = .error "Actions list cannot be empty.") ∧
    (d.catchKey = some [] → ∀ o, create_step_function nm (some d) ≠ .ok o) := by
  refine ⟨rfl, ?_, ?_⟩
  · intro hs
    have hb : buildAllStates d = .error "Actions list cannot be empty." := by
      simp [buildAllStates, hs, add_actions]
    simp [create_step_function, hb]
  · intro hc o hcon
    cases hb : buildAllStates d with
    | error e => simp [create_step_function, hb] at hcon
    | ok allSt =>
      obtain ⟨acts, allStates, second, f, rest, hst, hadd, hsec, hAS, hcase⟩ :=
        buildAllStates_unfold hb
      rcases hcase with ⟨hck, -⟩ | ⟨c, hck, hout⟩
      · rw [hck] at hc
        exact absurd hc (by simp)
      · rw [hck] at hc
        have hcnil : c = [] := by simpa using hc.symm
        subst hcnil
        simp [add_actions] at hout

/-- Claim C5, witness: the statement evaluated on the concrete document
with empty main and catch lists. -/
theorem c5_witness :
    create_step_function "m" (some c5doc) = .error "Actions list cannot be empty." ∧
    create_step_function "m" (some c5doc) ≠
      .ok (okSfn (create_step_function "m" (some c5doc))) :=
  ⟨(c5_empty_actions [] "m" c5doc).2.1 rfl,
   (c5_empty_actions [] "m" c5doc).2.2 rfl
     (okSfn (create_step_function "m" (some c5doc)))⟩

/-- Claim C4, counterexample: a tech descriptor carrying both the get
and the post key compiles without a ConflictingRoute error when the get
value is null: the route resolution succeeds as a POST call. -/
theorem c4_counterexample :
    c4tech.get.isSome = true ∧ c4tech.post.isSome = true ∧
    isOkE (getCallData c4action c4tech) = true := by
  decide

/-- Claim C4 (amended): route resolution fails with ConflictingRoute
naming the action exactly when a post key is present while the get key
holds a non-null value (key presence alone does not conflict: a
null-valued get key counts as no route); it fails with MissingRoute
when the effective route is null; otherwise it succeeds and the emitted
Parameters carry the effective route (as resource, path and
resourcePath) and the matching HTTP method. -/
theorem c4_routes (a : Action) (t : Tech) :
    (routeConflicts t → getCallData a t = .error (routeConflictMsg a)) ∧
    (¬routeConflicts t → effRoute t = JVal.null →
      getCallData a t = .error (noRouteMsg a)) ∧
    (¬routeConflicts t → effRoute t ≠ JVal.null →
      getCallData a t = .ok (callParams t (effRoute t) (effMethod t))) ∧
    (∀ params, getCallData a t = .ok params →
      ¬routeConflicts t ∧ effRoute t ≠ JVal.null ∧
      ∃ l, params = JVal.obj l ∧ dget l "resource" = some (effRoute t) ∧
        dget l "requestContext" =
          some (JVal.obj [("resourcePath", effRoute t),
            ("httpMethod", effMethod t)])) := by
  have hmain : ∀ r m, ∃ l, callParams t r m = JVal.obj l ∧
      dget l "resource" = some r ∧
      dget l "requestContext" =
        some (JVal.obj [("resourcePath", r), ("httpMethod", m)]) := by
    intro r m
    unfold callParams
    refine ⟨_, rfl, ?_, ?_⟩
    · simp [dget, List.find?]
    · simp [dget, List.find?]
  have hchar : getCallData a t =
      (if routeConflicts t then .error (routeConflictMsg a)
       else if effRoute t = JVal.null then .error (noRouteMsg a)
       else .ok (callParams t (effRoute t) (effMethod t))) := by
    obtain ⟨sv, tget, tpost, u1, q1, b1, f1, t1⟩ := t
    unfold getCallData routeConflicts effRoute effMethod
    cases tpost with
    | some p =>
      cases tget with
      | some g =>
        by_cases hg : g = JVal.null
        · subst hg
          by_cases hp : p = JVal.null <;> simp [hp]
        · simp [hg]
      | none =>
        by_cases hp : p = JVal.null <;> simp [hp]
    | none =>
      cases tget with
      | some g =>
        by_cases hg : g = JVal.null <;> simp [hg]
      | none => simp
  refine ⟨?_, ?_, ?_, ?_⟩
  · intro hC
    rw [hchar, if_pos hC]
  · intro hnC hnull
    rw [hchar, if_neg hnC, if_pos hnull]
  · intro hnC hnnull
    rw [hchar, if_neg hnC, if_neg hnnull]
  · intro params hok
    rw [hchar] at hok
    by_cases hC : routeConflicts t
    · rw [if_pos hC] at hok
      exact absurd hok (by simp)
    · rw [if_neg hC] at hok
      by_cases hnull : effRoute t = JVal.null
      · rw [if_pos hnull] at hok
        exact absurd hok (by simp)
      · rw [if_neg hnull] at hok
        have hpar : params = callParams t (effRoute t) (effMethod t) := by
          simpa using hok.symm
        obtain ⟨l, hl, h1, h2⟩ := hmain (effRoute t) (effMethod t)
        exact ⟨hC, hnull, l, by rw [hpar, hl], h1, h2⟩

/-- Claim C4, witness: the amended statement evaluated on the concrete
null-get-plus-post descriptor, which resolves to a POST call. -/
theorem c4_witness :
    getCallData c4action c4tech =
      .ok (callParams c4tech (effRoute c4tech) (effMethod c4tech)) :=
  (c4_routes c4action c4tech).2.2.1 (by decide) (by decide)

/-- Claim C6 (confirmed): a compiled Choice state carries a Default
entry exactly when its action declares a default key or a subsequent
action exists in the same action list. -/
theorem c6_choice_default (sts : List StateNode) (acts : List Action)
    (out : List StateNode) (h : add_actions sts acts = .ok out)
    (i : Nat) (a : Action) (node : StateNode)
    (ha : acts[i]? = some a) (hn : out[sts.length + i]? = some node)
    (hc : a.choices.isSome = true) :
    dmem node.state "Default" = true ↔
      (a.default.isSome = true ∨ i + 1 < acts.length) := by
  obtain ⟨la, prev, p, ns, hla, hprev, haux, hout, hlen, hidx⟩ := add_actions_unfold h
  have hnode : ns[i]? = some node := by rw [← hidx i]; exact hn
  obtain ⟨st, hst, hA, hB⟩ := aux_get haux i a ha
  have hiso := (newStateCore_ok hst).2.1
  cases hnext : acts[i + 1]? with
  | none =>
    have hthis := hA hnext
    rw [hnode] at hthis
    have hni := Option.some.inj hthis
    have hd : dmem node.state "Default" = a.default.isSome := by
      rw [hni, endMarkIf_dmem_eq _ _ _ _ (by decide)]
      exact (newStateCore_ok hst).2.2.2.2 hc
    have hge := List.getElem?_eq_none_iff.mp hnext
    constructor
    · intro hdm
      left
      rw [← hd]
      exact hdm
    · intro hor
      rcases hor with hor | hor
      · rw [hd]; exact hor
      · omega
  | some b =>
    obtain ⟨stb, hstb, -, -⟩ := aux_get haux (i + 1) b hnext
    have hthis := hB b stb hnext hstb
    rw [hnode] at hthis
    have hni := Option.some.inj hthis
    have hchoice : (endMarkIf la a st).isChoice = true := by
      rw [endMarkIf_isChoice, hiso]
      exact hc
    have hdm : dmem node.state "Default" = true := by
      rw [hni]
      exact linkPrev_dmem_default_choice _ _ hchoice
    have hlt : i + 1 < acts.length := by
      rcases List.getElem?_eq_some_iff.mp hnext with ⟨hh, -⟩
      exact hh
    constructor
    · intro _; right; exact hlt
    · intro _; exact hdm

/-- Claim C6, witness: the statement evaluated on the concrete list
where a default-less choice is followed by a wait action. -/
theorem c6_witness :
    dmem ((c6out[1]?).getD (mkPassState initAction)).state "Default" = true ↔
      (c6choice.default.isSome = true ∨ 0 + 1 < c6acts.length) :=
  c6_choice_default [mkPassState initAction] c6acts c6out rfl 0 c6choice
    ((c6out[1]?).getD (mkPassState initAction)) (by decide) (by decide) (by decide)

/-- Claim C7 (confirmed): the linker writes an outgoing edge on the
previous state only into a still-absent slot: a Choice with no Default
gets its Default set to the new name, a non-Choice with neither Next
nor End gets its Next set, and in every other case the previous state
is left untouched; an existing entry is never overwritten. -/
theorem c7_linker (prev : StateNode) (nm : String) :
    (prev.isChoice = true → dmem prev.state "Default" = false →
      (linkPrev prev nm).state = dset prev.state "Default" (JVal.str nm)) ∧
    (prev.isChoice = true → dmem prev.state "Default" = true →
      linkPrev prev nm = prev) ∧
    (prev.isChoice = false → dmem prev.state "Next" = false →
      dmem prev.state "End" = false →
      (linkPrev prev nm).state = dset prev.state "Next" (JVal.str nm)) ∧
    (prev.isChoice = false →
      (dmem prev.state "Next" = true ∨ dmem prev.state "End" = true) →
      linkPrev prev nm = prev) ∧
    (∀ k v, dget prev.state k = some v →
      dget (linkPrev prev nm).state k = some v) := by
  refine ⟨?_, ?_, ?_, ?_, fun k v h => linkPrev_dget_preserve h⟩
  · intro hc hd
    unfold linkPrev
    rw [if_pos hc, if_neg (by simp [hd])]
  · intro hc hd
    unfold linkPrev
    rw [if_pos hc, if_pos hd]
  · intro hc hn he
    unfold linkPrev
    rw [if_neg (by simp [hc]), if_neg (by simp [hn, he])]
  · intro hc hor
    unfold linkPrev
    rw [if_neg (by simp [hc]), if_pos (by rcases hor with hh | hh <;> simp [hh])]

/-- Claim C7, witness: linking a new state after a Choice with no
Default entry sets its Default edge. -/
theorem c7_witness :
    (linkPrev c7prev "nxt").state = dset c7prev.state "Default" (JVal.str "nxt") :=
  (c7_linker c7prev "nxt").1 rfl rfl

/-- Claim C8 (confirmed): the state compiled from the final action of a
non-empty list is marked End: true exactly when it has no explicit-next
entry. -/
theorem c8_terminal (sts : List StateNode) (acts : List Action)
    (out : List StateNode) (h : add_actions sts acts = .ok out) :
    ∃ last, out.getLast? = some last ∧ acts.getLast? = some last.action ∧
      (dget last.state "End" = some (JVal.bool true) ↔
        dmem last.state "Next" = false) := by
  obtain ⟨la, prev, p, ns, hla, hprev, haux, hout, hlen, hidx⟩ := add_actions_unfold h
  have hactsne : acts ≠ [] := by
    intro c; rw [c] at hla; simp at hla
  have hpos : 0 < acts.length := List.length_pos.mpr hactsne
  have hstsne : sts ≠ [] := by
    intro c; rw [c] at hprev; simp at hprev
  have hspos : 0 < sts.length := List.length_pos.mpr hstsne
  have hlaidx : acts[acts.length - 1]? = some la := by
    rw [← List.getLast?_eq_getElem?]
    exact hla
  obtain ⟨st, hst, hA, hB⟩ := aux_get haux (acts.length - 1) la hlaidx
  have hnone : acts[(acts.length - 1) + 1]? = none :=
    List.getElem?_eq_none_iff.mpr (by omega)
  have hns : ns[acts.length - 1]? = some (endMarkIf la la st) := hA hnone
  have hlenout : out.length = sts.length + acts.length := by
    rw [hout]
    simp only [List.length_append, List.length_cons, List.length_dropLast, hlen]
    omega
  have hlastidx : out.length - 1 = sts.length + (acts.length - 1) := by omega
  have hlast : out.getLast? = some (endMarkIf la la st) := by
    rw [List.getLast?_eq_getElem?, hlastidx, hidx (acts.length - 1), hns]
  refine ⟨endMarkIf la la st, hlast, ?_, ?_⟩
  · rw [hla, endMarkIf_action, (newStateCore_ok hst).1]
  · by_cases hnx : dmem st.state "Next" = true
    · have hle : endMarkIf la la st = st := endMarkIf_of_next la la st hnx
      have hEndF : dmem st.state "End" = false := (newStateCore_ok hst).2.2.1 hnx
      constructor
      · intro hE
        rw [hle, dget_eq_none_of_dmem_false hEndF] at hE
        exact absurd hE (by simp)
      · intro hN
        rw [hle, hnx] at hN
        exact absurd hN (by simp)
    · have hnxf : dmem st.state "Next" = false := bfalse hnx
      have hstate : (endMarkIf la la st).state = dset st.state "End" (JVal.bool true) :=
        endMarkIf_self la st hnxf
      constructor
      · intro _
        rw [hstate, dmem_dset_ne _ _ _ _ (by decide)]
        exact hnxf
      · intro _
        rw [hstate, dget_dset_self]

/-- Claim C8, witness: the statement evaluated on the concrete
one-action list, whose wait action carries no goto. -/
theorem c8_witness :
    ∃ last, c8out.getLast? = some last ∧ c8acts.getLast? = some last.action ∧
      (dget last.state "End" = some (JVal.bool true) ↔
        dmem last.state "Next" = false) :=
  c8_terminal [mkPassState initAction] c8acts c8out rfl

/-- Claim C10 (confirmed): the terminal-marking check compares actions
by structural equality with the last element, so an earlier action
equal to the final one also gets its state marked End: true when the
created state has no Next entry. -/
theorem c10_structural_end (sts : List StateNode) (acts : List Action)
    (out : List StateNode) (h : add_actions sts acts = .ok out)
    (i : Nat) (a la : Action) (st node : StateNode)
    (ha : acts[i]? = some a) (hla : acts.getLast? = some la) (heq : a = la)
    (hst : newStateCore a = .ok st) (hnx : dmem st.state "Next" = false)
    (hn : out[sts.length + i]? = some node) :
    dget node.state "End" = some (JVal.bool true) := by
  obtain ⟨la2, prev, p, ns, hla2, hprev, haux, hout, hlen, hidx⟩ := add_actions_unfold h
  have hla3 : la2 = la := by
    rw [hla] at hla2
    exact (by simpa using hla2 : la = la2).symm
  have hnode : ns[i]? = some node := by rw [← hidx i]; exact hn
  obtain ⟨st2, hst2, hA, hB⟩ := aux_get haux i a ha
  have hst3 : st2 = st := by
    rw [hst] at hst2
    exact (by simpa using hst2 : st = st2).symm
  rw [hst3] at hA hB
  have hmark : dget (endMarkIf la2 a st).state "End" = some (JVal.bool true) := by
    rw [hla3, heq, endMarkIf_self la st hnx, dget_dset_self]
  cases hnext : acts[i + 1]? with
  | none =>
    have hthis := hA hnext
    rw [hnode] at hthis
    rw [Option.some.inj hthis]
    exact hmark
  | some b =>
    obtain ⟨stb, hstb, -, -⟩ := aux_get haux (i + 1) b hnext
    have hthis := hB b stb hnext hstb
    rw [hnode] at hthis
    rw [Option.some.inj hthis]
    rw [linkPrev_dget_eq _ _ _ (by decide) (by decide)]
    exact hmark

/-! Lemmas about the batch export loop, for claim C9. -/

theorem mem_dset_of_ne {α : Type} {q : String × α} {d : List (String × α)}
    {k : String} {v : α} (h : q ∈ d) (hne : ¬(q.1 = k)) : q ∈ dset d k v := by
  unfold dset
  by_cases hm : dmem d k
  · rw [if_pos hm]
    refine List.mem_map.mpr ⟨q, h, ?_⟩
    rw [if_neg hne]
  · rw [if_neg hm]
    exact List.mem_append.mpr (Or.inl h)

theorem biz_skip (biz : Option String) (n : String) :
    (match biz with
      | none => false
      | some b => decide (n ≠ b)) = !allowedBiz biz n := by
  cases biz with
  | none => rfl
  | some b => simp [allowedBiz, decide_not]

/-- Every allowed name whose compile fails ends up in the collected
error mapping (carried invariants: collected documents compiled
successfully and collected errors record actual compile failures). -/
theorem collect_err_mem {compile : String → Except String SfnOut}
    {biz : Option String} {n e : String} :
    ∀ (names : List String) (sfns : List (String × SfnOut))
      (errs : List (String × String)),
      (∀ p ∈ sfns, isOkE (compile p.1) = true) →
      (∀ p ∈ errs, compile p.1 = .error p.2) →
      ((n ∈ names ∧ allowedBiz biz n = true ∧ compile n = .error e) ∨
        (n, e) ∈ errs) →
      (n, e) ∈ (collectSfn compile biz names (sfns, errs)).2 := by
  intro names
  induction names with
  | nil =>
    intro sfns errs hok herrs hcase
    rcases hcase with ⟨hmem, -, -⟩ | hmem
    · cases hmem
    · exact hmem
  | cons m rest ih =>
    intro sfns errs hok herrs hcase
    simp only [collectSfn]
    rw [biz_skip]
    by_cases hskip : (dmem sfns m || !allowedBiz biz m) = true
    · rw [if_pos hskip]
      apply ih sfns errs hok herrs
      rcases hcase with ⟨hmem, hallow, herr⟩ | hmem
      · rcases List.mem_cons.mp hmem with hnm | hnm
        · subst hnm
          have hsk2 : dmem sfns n = true ∨ allowedBiz biz n = false := by
            simpa using hskip
          rcases hsk2 with hd | hb
          · rcases List.any_eq_true.mp hd with ⟨p, hp, hpn⟩
            have hq := hok p hp
            have hpn2 : p.1 = n := by simpa using hpn
            rw [hpn2, herr] at hq
            simp [isOkE] at hq
          · rw [hallow] at hb
            exact absurd hb (by simp)
        · exact Or.inl ⟨hnm, hallow, herr⟩
      · exact Or.inr hmem
    · rw [if_neg hskip]
      cases hcm : compile m with
      | ok o =>
        apply ih (dset sfns m o) errs ?_ herrs
        · rcases hcase with ⟨hmem, hallow, herr⟩ | hmem
          · rcases List.mem_cons.mp hmem with hnm | hnm
            · subst hnm
              rw [hcm] at herr
              exact absurd herr (by simp)
            · exact Or.inl ⟨hnm, hallow, herr⟩
          · exact Or.inr hmem
        · intro p hp
          rcases mem_dset hp with hp2 | hp2
          · exact hok p hp2
          · rw [hp2]
            simp [isOkE, hcm]
      | error em =>
        apply ih sfns (dset errs m em) hok
        · intro p hp
          rcases mem_dset hp with hp2 | hp2
          · exact herrs p hp2
          · rw [hp2]
            simpa using hcm
        · rcases hcase with ⟨hmem, hallow, herr⟩ | hmem
          · rcases List.mem_cons.mp hmem with hnm | hnm
            · subst hnm
              rw [hcm] at herr
              have hee : em = e := by simpa using herr
              right
              rw [← hee]
              exact mem_dset_self errs n em
            · exact Or.inl ⟨hnm, hallow, herr⟩
          · right
            by_cases hnm : n = m
            · subst hnm
              have := herrs (n, e) hmem
              rw [hcm] at this
              have hee : em = e := by simpa using this
              rw [← hee]
              exact mem_dset_self errs n em
            · exact mem_dset_of_ne hmem (by simpa using hnm)

/-- When every allowed name compiles, the collector returns exactly the
declaratively expected documents and no errors. -/
theorem collect_no_errors {compile : String → Except String SfnOut}
    {biz : Option String} :
    ∀ (names : List String) (sfns : List (String × SfnOut)),
      (∀ n ∈ names, allowedBiz biz n = true → isOkE (compile n) = true) →
      collectSfn compile biz names (sfns, []) =
        (sfns ++ expectedFrom compile biz (sfns.map Prod.fst) names, []) := by
  intro names
  induction names with
  | nil =>
    intro sfns h
    simp [collectSfn, expectedFrom]
  | cons m rest ih =>
    intro sfns h
    simp only [collectSfn, expectedFrom]
    rw [biz_skip]
    by_cases hskip : (dmem sfns m || !allowedBiz biz m) = true
    · rw [if_pos hskip]
      have hcond : (m ∈ sfns.map Prod.fst ∨ allowedBiz biz m = false) := by
        have hsk2 : dmem sfns m = true ∨ allowedBiz biz m = false := by
          simpa using hskip
        rcases hsk2 with hd | hb
        · left
          rcases List.any_eq_true.mp hd with ⟨p, hp, hpn⟩
          exact List.mem_map.mpr ⟨p, hp, by simpa using hpn⟩
        · right
          exact hb
      rw [if_pos hcond]
      exact ih sfns (fun n hn => h n (List.mem_cons_of_mem m hn))
    · rw [if_neg hskip]
      have hof : (dmem sfns m || !allowedBiz biz m) = false := bfalse hskip
      have hdm : dmem sfns m = false := by
        cases hx : dmem sfns m with
        | false => rfl
        | true => rw [hx] at hof; simp at hof
      have hallow : allowedBiz biz m = true := by
        cases hx : allowedBiz biz m with
        | true => rfl
        | false =>
          rw [hx] at hof
          simp at hof
      have hcond2 : ¬(m ∈ sfns.map Prod.fst ∨ allowedBiz biz m = false) := by
        intro hc
        rcases hc with hc | hc
        · rcases List.mem_map.mp hc with ⟨p, hp, hpm⟩
          have : dmem sfns m = true :=
            List.any_eq_true.mpr ⟨p, hp, by simpa using hpm⟩
          rw [hdm] at this
          exact absurd this (by simp)
        · rw [hallow] at hc
          exact absurd hc (by simp)
      rw [if_neg hcond2]
      have hcm : isOkE (compile m) = true := h m (List.mem_cons_self m rest) hallow
      cases hcc : compile m with
      | error e =>
        rw [hcc] at hcm
        simp [isOkE] at hcm
      | ok o =>
        show collectSfn compile biz rest (dset sfns m o, []) =
          (sfns ++ ((m, o) ::
            expectedFrom compile biz (List.map Prod.fst sfns ++ [m]) rest), [])
        rw [ih (dset sfns m o) (fun n hn => h n (List.mem_cons_of_mem m hn)),
          dset_of_absent o hdm]
        simp [List.map_append, List.append_assoc]

/-- Claim C9 (confirmed): every allowed workflow is attempted; when at
least one fails, the batch fails, nothing is written to the output
stream and the error report names each failing workflow with its
message; when none fails, the batch succeeds and the documents are
written in order, consecutive ones separated by the boundary marker. -/
theorem c9_batch (compile : String → Except String SfnOut) (appName : String)
    (biz : Option String) (names : List String) :
    ((∃ n ∈ names, allowedBiz biz n = true ∧ ∃ e, compile n = .error e) →
      (exportContent compile appName biz names).failed = true ∧
      (exportContent compile appName biz names).outputStream = [] ∧
      ∀ n e, n ∈ names → allowedBiz biz n = true → compile n = .error e →
        ("Error in " ++ n ++ ": " ++ e) ∈
          (exportContent compile appName biz names).errorStream) ∧
    ((∀ n ∈ names, allowedBiz biz n = true → isOkE (compile n) = true) →
      (exportContent compile appName biz names).failed = false ∧
      (exportContent compile appName biz names).outputStream =
        renderDocs (expectedFrom compile biz [] names)) := by
  constructor
  · rintro ⟨n0, hn0, hallow0, e0, herr0⟩
    have hmem := collect_err_mem names [] [] (by simp) (by simp)
      (Or.inl ⟨hn0, hallow0, herr0⟩)
    have hne : (collectSfn compile biz names ([], [])).2.isEmpty = false := by
      cases hx : (collectSfn compile biz names ([], [])).2 with
      | nil => rw [hx] at hmem; cases hmem
      | cons q l => rfl
    refine ⟨?_, ?_, ?_⟩
    · simp only [exportContent, hne]
      rfl
    · simp only [exportContent, hne]
      rfl
    · intro n e hn ha he
      have hm2 := collect_err_mem names [] [] (by simp) (by simp)
        (Or.inl ⟨hn, ha, he⟩)
      simp only [exportContent, hne]
      simp only [Bool.false_eq_true, if_false]
      refine List.mem_append.mpr (Or.inr ?_)
      exact List.mem_map.mpr ⟨(n, e), hm2, rfl⟩
  · intro hok
    have hcoll := collect_no_errors names [] hok
    refine ⟨?_, ?_⟩
    · simp only [exportContent, hcoll]
      rfl
    · simp only [exportContent, hcoll]
      rfl

/-- Claim C9, witness: the statement applied to a concrete batch with
one failing workflow, and to a fully compiling batch. -/
theorem c9_witness :
    (exportContent c9compile "app" none c9names).failed = true ∧
    ("Error in " ++ "bad" ++ ": " ++ "boom") ∈
      (exportContent c9compile "app" none c9names).errorStream ∧
    (exportContent c9compile "app" none c9namesOk).failed = false := by
  have h1 := (c9_batch c9compile "app" none c9names).1
    ⟨"bad", by decide, rfl, "boom", rfl⟩
  have h2 := (c9_batch c9compile "app" none c9namesOk).2 (by decide)
  exact ⟨h1.1, h1.2.2 "bad" "boom" (by decide) rfl rfl, h2.1⟩

/-- Claim C10, witness: in the concrete list a, b, a the state compiled
from the first action, equal to the final one, is marked End: true. -/
theorem c10_witness :
    dget ((c10out[1]?).getD (mkPassState initAction)).state "End" =
      some (JVal.bool true) :=
  c10_structural_end [mkPassState initAction] c10acts c10out rfl 0
    (waitAction "a" 1) (waitAction "a" 1)
    (okNode (newStateCore (waitAction "a" 1)))
    ((c10out[1]?).getD (mkPassState initAction))
    (by decide) (by decide) rfl rfl (by decide) (by decide)

end Sfn
